import Mathlib

/-
Verification of the state-space-model (SSM) core of `neuromancer/dynamics.py`.

Tensors are modelled over ℤ.  A per-step tensor of shape (batch, features)
is a `Mat` (list of batch rows, each row a list of feature values); a
time-major tensor of shape (time, batch, features) is a `Seq` (list of
`Mat` time slices).  Sub-maps (`nn.Module`s with `in_features` and
`out_features`) act rowwise on a `Mat`.  Tensor bags (the `data` dicts) are
association lists from string keys to tagged values.
-/

namespace NM

/-- A per-step tensor of shape (batch, features): list of batch rows. -/
abbrev Mat : Type := List (List ℤ)

/-- A time-major tensor of shape (time, batch, features). -/
abbrev Seq : Type := List Mat

/-- Row-count and row-widths of a matrix, used to state shape facts. -/
def shape (A : Mat) : List Nat := A.map List.length

/-- Elementwise `torch.add` on equally shaped matrices. -/
def addMat (A B : Mat) : Mat := List.zipWith (List.zipWith (· + ·)) A B

/-- Feature-axis concatenation (`torch.cat(..., dim=-1)`) of two matrices. -/
def hcatMat (A B : Mat) : Mat := List.zipWith (· ++ ·) A B

/-- Feature-axis concatenation of the time slices of a window
(`torch.cat([Xtd[k] for k in range(Xtd.shape[0])], dim=-1)`). -/
def catRows (S : Seq) : Mat :=
  match S with
  | [] => []
  | A :: rest => rest.foldl hcatMat A

/-- The slice `T[i : i + n]` of a time-major tensor. -/
def window (S : Seq) (i n : Nat) : Seq := (S.drop i).take n

/-- A sub-map: a numeric function with declared feature widths and an
optional regularization-error accessor (`reg = none` models the absence of
a `reg_error` attribute). -/
structure SubMap where
  in_features : Nat
  out_features : Nat
  f : List ℤ → List ℤ
  reg : Option ℤ := none

/-- Rowwise application of a sub-map to a (batch, features) tensor. -/
def SubMap.app (s : SubMap) (A : Mat) : Mat := A.map s.f

/-- Output-key suffixing from `SSM.__init__`:
`f"{k}_{name}" if name is not None else k`. -/
def suffixKey (name : Option String) (k : String) : String :=
  match name with
  | some n => k ++ "_" ++ n
  | none => k

/-- The merged input-key map built by `SSM.update_input_keys`:
`{**{k: k for k in DEFAULT_INPUT_KEYS if k not in input_key_map}, **input_key_map}`.
Python dict insertion order: identity entries for unmapped defaults first
(in default order), then the caller-supplied entries. -/
def mkInputKeyMap (defaults : List String) (m : List (String × String)) :
    List (String × String) :=
  ((defaults.filter (fun k => !(decide (k ∈ m.map Prod.fst)))).map (fun k => (k, k))) ++ m

/-- The check performed by `SSM.update_input_keys`: the *list* of values of
the merged map (`list(self.input_key_map.values())`) must have the same
length as `DEFAULT_INPUT_KEYS`, else the assertion fails. -/
def update_input_keys (defaults : List String) (m : List (String × String)) :
    Except String (List String) :=
  let ikm := mkInputKeyMap defaults m
  let input_keys := ikm.map Prod.snd
  if input_keys.length = defaults.length then Except.ok input_keys
  else Except.error "Length of given input keys must equal the length of default input keys"

theorem length_filter_add_length_filter_not (l : List String) (p : String → Bool) :
    (l.filter p).length + (l.filter (fun x => !(p x))).length = l.length := by
  induction l with
  | nil => rfl
  | cons a t ih =>
    by_cases h : p a = true
    · simp [List.filter_cons, h, ← ih]
      omega
    · have hb : p a = false := by simpa using h
      simp [List.filter_cons, hb, ← ih]
      omega

theorem mkInputKeyMap_length (defaults : List String) (m : List (String × String)) :
    (mkInputKeyMap defaults m).length
      = (defaults.filter (fun k => !(decide (k ∈ m.map Prod.fst)))).length + m.length := by
  simp [mkInputKeyMap]

theorem update_input_keys_isOk_iff (defaults : List String) (m : List (String × String))
    (hd : defaults.Nodup) (hm : (m.map Prod.fst).Nodup) :
    (update_input_keys defaults m).isOk = true ↔ ∀ k ∈ m.map Prod.fst, k ∈ defaults := by
  classical
  set ks : List String := m.map Prod.fst with hks
  have hlen : (mkInputKeyMap defaults m).length
      = (defaults.filter (fun k => !(decide (k ∈ ks)))).length + m.length :=
    mkInputKeyMap_length defaults m
  have hsplit :
      (defaults.filter (fun k => decide (k ∈ ks))).length
        + (defaults.filter (fun k => !(decide (k ∈ ks)))).length = defaults.length :=
    length_filter_add_length_filter_not defaults (fun k => decide (k ∈ ks))
  have hmlen : m.length = ks.length := by simp [hks]
  have hfilter_nodup : (defaults.filter (fun k => decide (k ∈ ks))).Nodup :=
    hd.filter _
  have hfilter_sub : (defaults.filter (fun k => decide (k ∈ ks))) ⊆ ks := by
    intro x hx
    have := List.mem_filter.mp hx
    simpa using this.2
  have hA_le : (defaults.filter (fun k => decide (k ∈ ks))).length ≤ ks.length :=
    (hfilter_nodup.subperm hfilter_sub).length_le
  have hmain : (defaults.filter (fun k => decide (k ∈ ks))).length = ks.length
      ↔ ∀ k ∈ ks, k ∈ defaults := by
    constructor
    · intro hAeq k hkks
      by_contra hkd
      have hsub2 : (defaults.filter (fun k => decide (k ∈ ks))) ⊆ ks.erase k := by
        intro x hx
        have hx2 := List.mem_filter.mp hx
        have hxks : x ∈ ks := by simpa using hx2.2
        have hne : x ≠ k := by
          intro h
          exact hkd (h ▸ hx2.1)
        exact (List.mem_erase_of_ne hne).mpr hxks
      have hle2 : (defaults.filter (fun k => decide (k ∈ ks))).length ≤ (ks.erase k).length :=
        (hfilter_nodup.subperm hsub2).length_le
      have herase : (ks.erase k).length = ks.length - 1 := List.length_erase_of_mem hkks
      have hpos : 0 < ks.length := List.length_pos.mpr (List.ne_nil_of_mem hkks)
      omega
    · intro hsub
      have hsub3 : ks ⊆ (defaults.filter (fun k => decide (k ∈ ks))) := by
        intro x hx
        exact List.mem_filter.mpr ⟨hsub x hx, by simpa using hx⟩
      have hle3 : ks.length ≤ (defaults.filter (fun k => decide (k ∈ ks))).length :=
        (hm.subperm hsub3).length_le
      omega
  have hiff : (update_input_keys defaults m).isOk = true
      ↔ (mkInputKeyMap defaults m).length = defaults.length := by
    simp only [update_input_keys, List.length_map]
    by_cases h : (mkInputKeyMap defaults m).length = defaults.length
    · simp [h, Except.isOk, Except.toBool]
    · simp [h, Except.isOk, Except.toBool]
  rw [hiff, hlen]
  constructor
  · intro h
    exact hmain.mp (by omega)
  · intro h
    have := hmain.mpr h
    omega

/-- Values stored in a tensor bag: a time-major tensor, a (batch, features)
tensor, or a 0-dimensional scalar tensor. -/
inductive Val where
  | seq (s : Seq)
  | mat (m : Mat)
  | scal (q : ℤ)
deriving DecidableEq

instance {E A : Type} [DecidableEq E] [DecidableEq A] : DecidableEq (Except E A) := by
  intro a b
  rcases a with e1 | v1 <;> rcases b with e2 | v2
  · exact decidable_of_iff (e1 = e2) (by simp)
  · exact Decidable.isFalse (by simp)
  · exact Decidable.isFalse (by simp)
  · exact decidable_of_iff (v1 = v2) (by simp)

/-- A tensor bag (`data` dict): association list from key to value. -/
abbrev Bag : Type := List (String × Val)

/-- Look up a key directly in a bag, expecting a time-major tensor. -/
def getSeqRaw (data : Bag) (k : String) : Option Seq :=
  match List.lookup k data with
  | some (Val.seq s) => some s
  | _ => none

/-- Look up a key directly in a bag, expecting a (batch, features) tensor. -/
def getMatRaw (data : Bag) (k : String) : Option Mat :=
  match List.lookup k data with
  | some (Val.mat A) => some A
  | _ => none

/-- The lookup `data[self.input_key_map[k]]` for a time-major tensor. -/
def getSeq2 (data : Bag) (ikm : List (String × String)) (k : String) : Option Seq :=
  match List.lookup k ikm with
  | some kk => getSeqRaw data kk
  | none => none

/-- The lookup `data[self.input_key_map[k]]` for a (batch, features) tensor. -/
def getMat2 (data : Bag) (ikm : List (String × String)) (k : String) : Option Mat :=
  match List.lookup k ikm with
  | some kk => getMatRaw data kk
  | none => none

/-- The default input keys of a `BlockSSM`, after the conditional appends in
`BlockSSM.__init__`. -/
def blockDefaultInputKeys (fu fd : Option SubMap) : List String :=
  ["x0", "Yf"] ++ (if fu.isSome then ["Uf"] else []) ++ (if fd.isSome then ["Df"] else [])

/-- The default output keys of a `BlockSSM`, after the conditional appends in
`BlockSSM.__init__`. -/
def blockDefaultOutputKeys (fu fd fe : Option SubMap) : List String :=
  ["reg_error", "X_pred", "Y_pred"] ++ (if fu.isSome then ["fU"] else [])
    ++ (if fd.isSome then ["fD"] else []) ++ (if fe.isSome then ["fE"] else [])

/-- A constructed `BlockSSM` instance. -/
structure BlockSSM where
  fx : SubMap
  fy : SubMap
  fu : Option SubMap
  fd : Option SubMap
  fe : Option SubMap
  fyu : Option SubMap
  xou : Mat → Mat → Mat
  xod : Mat → Mat → Mat
  xoe : Mat → Mat → Mat
  xoyu : Mat → Mat → Mat
  residual : Bool
  name : Option String
  input_key_map : List (String × String)
  output_keys : List String

/-- The assertions of `BlockSSM.check_features`. -/
def BlockSSM.checkFeatures (fx fy : SubMap) (fu fd : Option SubMap) : Bool :=
  (fx.in_features == fx.out_features) &&
  (fy.in_features == fx.out_features) &&
  (match fu with
   | some u => u.out_features == fx.out_features
   | none => true) &&
  (match fd with
   | some d => d.out_features == fx.out_features
   | none => true)

/-- `BlockSSM.__init__`: appends the conditional default keys, runs
`SSM.update_input_keys` (whose assertion may fail), suffixes the output
keys with the instance name, and runs `check_features` (whose assertions
may fail). -/
def mkBlockSSM (fx fy : SubMap) (fu fd fe fyu : Option SubMap)
    (xou xod xoe xoyu : Mat → Mat → Mat) (residual : Bool)
    (name : Option String) (ikm0 : List (String × String)) : Except String BlockSSM :=
  let dIn := blockDefaultInputKeys fu fd
  let dOut := blockDefaultOutputKeys fu fd fe
  match update_input_keys dIn ikm0 with
  | Except.error e => Except.error e
  | Except.ok _ =>
    if BlockSSM.checkFeatures fx fy fu fd then
      Except.ok
        ⟨fx, fy, fu, fd, fe, fyu, xou, xod, xoe, xoyu, residual, name,
          mkInputKeyMap dIn ikm0, dOut.map (suffixKey name)⟩
    else Except.error "dimension mismatch"

/-- The children of a `BlockSSM` in registration order (`self.fx, self.fy,
self.fu, self.fd, self.fe, self.fyu`), omitting absent channels. -/
def BlockSSM.children (m : BlockSSM) : List SubMap :=
  [m.fx, m.fy] ++ m.fu.toList ++ m.fd.toList ++ m.fe.toList ++ m.fyu.toList

/-- `BlockSSM.reg_error`: sum of the regularization errors of the children
that have a `reg_error` accessor; children without one are skipped. -/
def BlockSSM.regError (m : BlockSSM) : ℤ :=
  (m.children.filterMap SubMap.reg).sum

/-- The per-step values produced by one iteration of the `BlockSSM.forward`
loop. -/
structure StepOut where
  x : Mat
  y : Mat
  fu : Option Mat
  fd : Option Mat
  fe : Option Mat
deriving DecidableEq, Inhabited

/-- The conditional combination `if channel is configured: x = op(x, v)`
used for each optional channel in the forward loops. -/
def combOpt (op : Mat → Mat → Mat) (x : Mat) (v : Option Mat) : Mat :=
  match v with
  | some A => op x A
  | none => x

/-- The state part of one iteration of the `BlockSSM.forward` loop: apply
`fx`, combine the optional input/disturbance channels, combine the error
channel evaluated on the step's previous state, and add the previous
state when residual mode is on. -/
def blockX (m : BlockSSM) (u_i d_i x : Mat) : Mat :=
  let x1 := m.fx.app x
  let x2 := combOpt m.xou x1 (m.fu.map (fun s => s.app u_i))
  let x3 := combOpt m.xod x2 (m.fd.map (fun s => s.app d_i))
  let x4 := combOpt m.xoe x3 (m.fe.map (fun s => s.app x))
  if m.residual then addMat x4 x else x4

/-- The observation part of one iteration of the `BlockSSM.forward` loop:
`y = fy(x)` combined with the optional input-observation channel. -/
def blockY (m : BlockSSM) (u_i x5 : Mat) : Mat :=
  combOpt m.xoyu (m.fy.app x5) (m.fyu.map (fun s => s.app u_i))

/-- One iteration of the `BlockSSM.forward` loop (lines 154-176 of
`dynamics.py`), given the step slices `u_i = data[...Uf][i]` and
`d_i = data[...Df][i]`. -/
def blockStep (m : BlockSSM) (u_i d_i x : Mat) : StepOut :=
  ⟨blockX m u_i d_i x, blockY m u_i (blockX m u_i d_i x),
    m.fu.map (fun s => s.app u_i), m.fd.map (fun s => s.app d_i),
    m.fe.map (fun s => s.app x)⟩

/-- The unrolled `for i in range(nsteps)` loop of `BlockSSM.forward`,
carrying the running state and the step index. -/
def blockUnroll (m : BlockSSM) (U D : Seq) : Mat → Nat → Nat → List StepOut
  | _, _, 0 => []
  | x, i, k + 1 =>
    let so := blockStep m (U.getD i default) (D.getD i default) x
    so :: blockUnroll m U D so.x (i + 1) k

/-- `BlockSSM.forward`: derive the horizon from the `Yf` entry, unroll the
loop, stack the non-empty per-step lists against `output_keys[1:]`, and
add the regularization scalar under `output_keys[0]`. -/
def BlockSSM.forward (m : BlockSSM) (data : Bag) : Option Bag :=
  match getSeq2 data m.input_key_map "Yf" with
  | none => none
  | some yf =>
    match getMat2 data m.input_key_map "x0" with
    | none => none
    | some x0 =>
      match (if (m.fu.isSome || m.fyu.isSome) && (yf.length != 0)
          then getSeq2 data m.input_key_map "Uf" else some []) with
      | none => none
      | some U =>
        match (if m.fd.isSome && (yf.length != 0)
            then getSeq2 data m.input_key_map "Df" else some []) with
        | none => none
        | some D =>
          let outs := blockUnroll m U D x0 0 yf.length
          let X := outs.map StepOut.x
          let Y := outs.map StepOut.y
          let FU := outs.filterMap StepOut.fu
          let FD := outs.filterMap StepOut.fd
          let FE := outs.filterMap StepOut.fe
          let tls := [X, Y, FU, FD, FE].filter (fun l => !l.isEmpty)
          let stacked := (tls.zip m.output_keys.tail).filterMap
            (fun p => if p.1.isEmpty then none else some (p.2, Val.seq p.1))
          some (stacked ++ [(m.output_keys.headD "", Val.scal m.regError)])

/-- An identity sub-map of width 1, used in concrete instances. -/
def idm1 : SubMap := ⟨1, 1, fun v => v, none⟩

/-- Claim C1 (counterexample): constructing a `BlockSSM` with the rename
mapping `{"x0": "Yf"}` — a collision sending the default key `x0` onto the
other default key `Yf` — succeeds, and the resulting active input-key
map's value set has 1 element while the default input key list has 2.
The claimed rejection of collisions does not happen: the assertion counts
`list(input_key_map.values())`, which keeps duplicates. -/
theorem C1_collision_accepted :
    (mkBlockSSM idm1 idm1 none none none none addMat addMat addMat addMat false
      (some "block_ssm") [("x0", "Yf")]).isOk = true
    ∧ ((mkInputKeyMap (blockDefaultInputKeys none none) [("x0", "Yf")]).map
        Prod.snd).dedup.length = 1
    ∧ (blockDefaultInputKeys none none).length = 2 := by decide

/-- Claim C1 (amended): the input-key check of `SSM.update_input_keys`
succeeds exactly when every key of the supplied rename mapping is one of
the module's default input keys — the assertion counts the value *list*
of the merged map (whose length is the number of merged keys), so a
mapping sending two distinct default keys to the same actual key is
accepted, and only mappings mentioning a key outside the default list
fail with a configuration error. -/
theorem C1_update_input_keys_check (defaults : List String)
    (m : List (String × String)) (hd : defaults.Nodup)
    (hm : (m.map Prod.fst).Nodup) :
    (update_input_keys defaults m).isOk = true ↔ ∀ k ∈ m.map Prod.fst, k ∈ defaults :=
  update_input_keys_isOk_iff defaults m hd hm

/-- Claim C1 witness: the amended characterization applied at a concrete
mapping that renames `x0` to a fresh key. -/
theorem C1_update_input_keys_check_witness :
    (update_input_keys ["x0", "Yf"] [("x0", "x0_estim")]).isOk = true :=
  (C1_update_input_keys_check ["x0", "Yf"] [("x0", "x0_estim")]
    (by decide) (by decide)).mpr (by decide)

theorem addMat_comm (A B : Mat) : addMat A B = addMat B A := by
  unfold addMat
  induction A generalizing B with
  | nil => cases B <;> rfl
  | cons a ta ih =>
    cases B with
    | nil => rfl
    | cons b tb =>
      simp only [List.zipWith]
      refine congrArg₂ _ ?_ (ih tb)
      induction a generalizing b with
      | nil => cases b <;> rfl
      | cons x tx ihx =>
        cases b with
        | nil => rfl
        | cons y ty =>
          simp only [List.zipWith]
          exact congrArg₂ _ (add_comm x y) (ihx ty)

theorem shape_addMat (A B : Mat) (h : shape A = shape B) :
    shape (addMat A B) = shape A := by
  unfold shape at h
  unfold shape addMat
  induction A generalizing B with
  | nil => cases B <;> simp
  | cons a ta ih =>
    cases B with
    | nil => simp at h
    | cons b tb =>
      simp only [List.map_cons, List.cons.injEq] at h
      simp only [List.zipWith, List.map_cons, List.cons.injEq]
      exact ⟨by simp [List.length_zipWith, h.1], ih tb h.2⟩

theorem zip_add_zero_left (a b : List ℤ) (h : a.length = b.length) :
    List.zipWith (· + ·) (a.map (fun _ => (0 : ℤ))) b = b := by
  induction a generalizing b with
  | nil =>
    cases b with
    | nil => rfl
    | cons y ty => simp at h
  | cons x tx ih =>
    cases b with
    | nil => simp at h
    | cons y ty =>
      simp only [List.length_cons, Nat.succ.injEq] at h
      simp only [List.map_cons, List.zipWith]
      exact congrArg₂ _ (zero_add y) (ih ty h)

theorem addMat_zero_left (A B : Mat) (h : shape A = shape B) :
    addMat (A.map (fun row => row.map (fun _ => (0 : ℤ)))) B = B := by
  unfold shape at h
  unfold addMat
  induction A generalizing B with
  | nil =>
    cases B with
    | nil => rfl
    | cons b tb => simp at h
  | cons a ta ih =>
    cases B with
    | nil => simp at h
    | cons b tb =>
      simp only [List.map_cons, List.cons.injEq] at h
      simp only [List.map_cons, List.zipWith]
      exact congrArg₂ _ (zip_add_zero_left a b h.1) (ih tb h.2)

/-- The trajectory the spec scenario describes: starting from the supplied
initial state, each step adds that step's input-channel contribution, so
step `t` holds the initial state plus the cumulative sum up to `t`. -/
def cumsumTraj (x0 : Mat) (us : List Mat) : List Mat :=
  match us with
  | [] => []
  | u :: rest => addMat x0 u :: cumsumTraj (addMat x0 u) rest

theorem blockStep_zero_fx_cumsum (m : BlockSSM) (u : SubMap)
    (hfx : ∀ row, m.fx.f row = row.map (fun _ => (0 : ℤ)))
    (hfu : m.fu = some u) (hid : ∀ row, u.f row = row)
    (hfd : m.fd = none) (hfe : m.fe = none)
    (hres : m.residual = true) (hxou : m.xou = addMat)
    (x u_i d_i : Mat) (hsh : shape u_i = shape x) :
    (blockStep m u_i d_i x).x = addMat x u_i := by
  show blockX m u_i d_i x = addMat x u_i
  simp only [blockX, combOpt, hfu, hfd, hfe, hres, hxou, Option.map_some', Option.map_none',
    SubMap.app, if_true]
  have hz : x.map m.fx.f = x.map (fun row => row.map (fun _ => (0 : ℤ))) :=
    List.map_congr_left (fun row _ => hfx row)
  have hu2 : u_i.map u.f = u_i := by
    rw [List.map_congr_left (fun r _ => hid r)]
    exact List.map_id u_i
  rw [hz, hu2, addMat_zero_left x u_i hsh.symm]
  exact addMat_comm u_i x

theorem blockUnroll_zero_fx_cumsum (m : BlockSSM) (u : SubMap) (U D : Seq)
    (hfx : ∀ row, m.fx.f row = row.map (fun _ => (0 : ℤ)))
    (hfu : m.fu = some u) (hid : ∀ row, u.f row = row)
    (hfd : m.fd = none) (hfe : m.fe = none)
    (hres : m.residual = true) (hxou : m.xou = addMat) :
    ∀ (k i : Nat) (x : Mat), i + k ≤ U.length →
      (∀ j, j < k → shape (U.getD (i + j) default) = shape x) →
      (blockUnroll m U D x i k).map StepOut.x = cumsumTraj x (window U i k) := by
  intro k
  induction k with
  | zero =>
    intro i x _ _
    simp [blockUnroll, window, cumsumTraj]
  | succ n ih =>
    intro i x hlen hsh
    have hiU : i < U.length := by omega
    have hget : U.getD i default = U.get ⟨i, hiU⟩ := by
      rw [List.getD_eq_getElem U default hiU]
      simp
    have hwin : window U i (n + 1) = U.getD i default :: window U (i + 1) n := by
      unfold window
      rw [List.drop_eq_getElem_cons hiU, List.take_succ_cons, hget]
      simp
    have hsh0 : shape (U.getD i default) = shape x := by
      have := hsh 0 (by omega)
      simpa using this
    have hstep := blockStep_zero_fx_cumsum m u hfx hfu hid hfd hfe hres hxou
      x (U.getD i default) (D.getD i default) hsh0
    rw [hwin]
    simp only [blockUnroll, cumsumTraj, List.map_cons]
    refine congrArg₂ _ hstep ?_
    rw [hstep]
    refine ih (i + 1) (addMat x (U.getD i default)) (by omega) ?_
    intro j hj
    have hjj := hsh (j + 1) (by omega)
    have heq : i + (j + 1) = i + 1 + j := by omega
    rw [heq] at hjj
    rw [hjj]
    have hx : shape (addMat x (U.getD i default)) = shape x :=
      shape_addMat x (U.getD i default) hsh0.symm
    exact hx.symm

/-- A BlockSSM whose construction mirrors the claim scenario: identity state
transition and input channel, additive operators, residual mode on. -/
def blockC3 : Except String BlockSSM :=
  mkBlockSSM idm1 idm1 (some idm1) none none none addMat addMat addMat addMat true
    (some "block_ssm") []

/-- The input bag of the claim scenario: `x0 = [0]`, horizon 3, input
sequence `u = [[1],[2],[3]]`. -/
def bagC3 : Bag :=
  [("x0", Val.mat [[0]]), ("Yf", Val.seq [[[0]], [[0]], [[0]]]),
   ("Uf", Val.seq [[[1]], [[2]], [[3]]])]

/-- Claim C3 (counterexample): with identity `fx`, identity `fu`, additive
operators and residual mode ON, the scenario `x0 = [0]`,
`u = [[1],[2],[3]]` produces the state trajectory `[[1],[4],[11]]` (each
step computes `x = fx(x) + fu(u_i) + x_prev = 2*x_prev + u_i`), not the
claimed cumulative sum `[[1],[3],[6]]`. -/
theorem C3_residual_identity_fx_counterexample :
    (blockC3.map (fun m =>
      (m.forward bagC3).map (fun out => getSeqRaw out "X_pred_block_ssm")))
      = Except.ok (some (some [[[1]], [[4]], [[11]]]))
    ∧ ([[[1]], [[4]], [[11]]] : Seq) ≠ [[[1]], [[3]], [[6]]] := by decide

/-- Claim C3 (amended): for a BlockSSM whose state-transition sub-map `fx`
is the ZERO map (not the identity), whose input channel `fu` is the
identity, with no disturbance/error channels, additive combination
operator and residual mode on, the state trajectory at every step equals
the supplied initial state plus the cumulative sum of the input-channel
contributions up to that step (so `x0 = [0]`, `u = [[1],[2],[3]]` yields
`[[1],[3],[6]]`). -/
theorem C3_residual_zero_fx_cumsum (m : BlockSSM) (u : SubMap) (U D : Seq)
    (x0 : Mat) (N : Nat)
    (hfx : ∀ row, m.fx.f row = row.map (fun _ => (0 : ℤ)))
    (hfu : m.fu = some u) (hid : ∀ row, u.f row = row)
    (hfd : m.fd = none) (hfe : m.fe = none)
    (hres : m.residual = true) (hxou : m.xou = addMat)
    (hN : N ≤ U.length)
    (hU : ∀ i, i < N → shape (U.getD i default) = shape x0) :
    (blockUnroll m U D x0 0 N).map StepOut.x = cumsumTraj x0 (U.take N) := by
  have := blockUnroll_zero_fx_cumsum m u U D hfx hfu hid hfd hfe hres hxou
    N 0 x0 (by omega) (fun j hj => by simpa using hU j hj)
  simpa [window] using this

/-- A concrete instance for the C3 witness: zero `fx`, identity `fu`. -/
def blockC3w : BlockSSM :=
  ⟨⟨1, 1, fun row => row.map (fun _ => (0 : ℤ)), none⟩, idm1, some idm1, none, none, none,
    addMat, addMat, addMat, addMat, true, some "block_ssm",
    [("x0", "x0"), ("Yf", "Yf"), ("Uf", "Uf")],
    ["reg_error_block_ssm", "X_pred_block_ssm", "Y_pred_block_ssm", "fU_block_ssm"]⟩

/-- Claim C3 witness: the amended cumulative-sum theorem at the concrete
scenario, producing exactly `[[1],[3],[6]]`. -/
theorem C3_residual_zero_fx_cumsum_witness :
    (blockUnroll blockC3w [[[1]], [[2]], [[3]]] [] [[0]] 0 3).map StepOut.x
      = cumsumTraj [[0]] (([[[1]], [[2]], [[3]]] : Seq).take 3)
    ∧ cumsumTraj [[0]] ([[[1]], [[2]], [[3]]] : Seq) = [[[1]], [[3]], [[6]]] :=
  ⟨C3_residual_zero_fx_cumsum blockC3w idm1 [[[1]], [[2]], [[3]]] [] [[0]] 3
    (fun _ => rfl) rfl (fun _ => rfl) rfl rfl rfl rfl (by decide) (by decide),
   by decide⟩

/-- A width-1 sub-map that differs from the identity as a function but
agrees with it on width-1 rows only by computation. -/
def appendNilMap : SubMap := ⟨1, 1, fun v => v ++ [], none⟩

/-- Claim C7: in every per-step update of a `BlockSSM` forward call, (a)
the step result depends on the error channel only through its value at
the step's previous state `x_prev` — two error sub-maps agreeing on
`x_prev` give identical step results even if they differ elsewhere, e.g.
on the newly computed state — and (b) with residual mode on, the next
state is the residual-off state plus `x_prev` under plain elementwise
tensor addition, whatever the configured combination operators are. -/
theorem C7_error_reads_prev_state_and_residual_plain_add
    (m : BlockSSM) (e1 e2 : SubMap) (u_i d_i x : Mat)
    (h : e1.app x = e2.app x) :
    blockStep { m with fe := some e1 } u_i d_i x
      = blockStep { m with fe := some e2 } u_i d_i x
    ∧ (blockStep { m with residual := true } u_i d_i x).x
      = addMat (blockStep { m with residual := false } u_i d_i x).x x := by
  constructor
  · simp [blockStep, blockX, blockY, combOpt, h]
  · simp [blockStep, blockX, blockY, combOpt]

/-- Claim C7 witness: the theorem applied at a concrete instance; the two
error sub-maps are different functions that agree on the previous state. -/
theorem C7_error_reads_prev_state_witness :
    blockStep { blockC3w with fe := some idm1 } [[1]] [[2]] [[5]]
      = blockStep { blockC3w with fe := some appendNilMap } [[1]] [[2]] [[5]] :=
  (C7_error_reads_prev_state_and_residual_plain_add blockC3w idm1 appendNilMap
    [[1]] [[2]] [[5]] (by decide)).1

/-- The sub-map interface contract: on an input row of the declared input
width, the output row has the declared output width. -/
def SubMap.WF (s : SubMap) : Prop :=
  ∀ v : List ℤ, v.length = s.in_features → (s.f v).length = s.out_features

theorem rows_width_of_shape (A : Mat) (bs c : Nat)
    (h : shape A = List.replicate bs c) : ∀ row ∈ A, row.length = c := by
  intro row hrow
  have : row.length ∈ shape A := List.mem_map_of_mem List.length hrow
  rw [h] at this
  exact List.eq_of_mem_replicate this

theorem length_of_shape (A : Mat) (bs c : Nat)
    (h : shape A = List.replicate bs c) : A.length = bs := by
  have := congrArg List.length h
  simpa [shape] using this

theorem shape_app (s : SubMap) (A : Mat) (hwf : s.WF)
    (h : ∀ row ∈ A, row.length = s.in_features) :
    shape (s.app A) = List.replicate A.length s.out_features := by
  unfold shape SubMap.app
  induction A with
  | nil => rfl
  | cons a t ih =>
    simp only [List.map_cons, List.length_cons, List.replicate_succ]
    exact congrArg₂ List.cons (hwf a (h a (List.mem_cons_self a t)))
      (ih (fun r hr => h r (List.mem_cons_of_mem a hr)))

theorem combOpt_shape (op : Mat → Mat → Mat) (x : Mat) (v : Option Mat)
    (hop : ∀ A B, shape A = shape B → shape (op A B) = shape A)
    (hv : ∀ A, v = some A → shape A = shape x) :
    shape (combOpt op x v) = shape x := by
  cases v with
  | none => rfl
  | some A => exact hop x A (hv A rfl).symm

theorem blockX_shape (m : BlockSSM) (bs : Nat) (u_i d_i x : Mat)
    (hwfx : m.fx.WF) (hin : m.fx.in_features = m.fx.out_features)
    (hu : ∀ u, m.fu = some u → u.WF ∧ u.out_features = m.fx.out_features
          ∧ shape u_i = List.replicate bs u.in_features)
    (hd : ∀ d, m.fd = some d → d.WF ∧ d.out_features = m.fx.out_features
          ∧ shape d_i = List.replicate bs d.in_features)
    (he : ∀ e, m.fe = some e → e.WF ∧ e.out_features = m.fx.out_features
          ∧ e.in_features = m.fx.out_features)
    (hxou : ∀ A B, shape A = shape B → shape (m.xou A B) = shape A)
    (hxod : ∀ A B, shape A = shape B → shape (m.xod A B) = shape A)
    (hxoe : ∀ A B, shape A = shape B → shape (m.xoe A B) = shape A)
    (hx : shape x = List.replicate bs m.fx.out_features) :
    shape (blockX m u_i d_i x) = List.replicate bs m.fx.out_features := by
  have hlen : x.length = bs := length_of_shape x bs _ hx
  have hrows : ∀ row ∈ x, row.length = m.fx.in_features := by
    rw [hin]
    exact rows_width_of_shape x bs _ hx
  have h1 : shape (m.fx.app x) = List.replicate bs m.fx.out_features := by
    rw [shape_app m.fx x hwfx hrows, hlen]
  have happ : ∀ (s : SubMap) (A : Mat), s.WF → shape A = List.replicate bs s.in_features →
      shape (s.app A) = List.replicate bs s.out_features := by
    intro s A hwf hA
    rw [shape_app s A hwf (rows_width_of_shape A bs _ hA), length_of_shape A bs _ hA]
  have h2 : shape (combOpt m.xou (m.fx.app x) (m.fu.map fun s => s.app u_i))
      = List.replicate bs m.fx.out_features := by
    rw [combOpt_shape m.xou _ _ hxou ?_, h1]
    intro A hA
    rcases hfu : m.fu with _ | u
    · rw [hfu] at hA
      simp at hA
    · rw [hfu] at hA
      simp only [Option.map_some', Option.some.injEq] at hA
      obtain ⟨hw, ho, hs⟩ := hu u hfu
      rw [← hA, happ u u_i hw hs, ho, h1]
  have h3 : shape (combOpt m.xod (combOpt m.xou (m.fx.app x) (m.fu.map fun s => s.app u_i))
        (m.fd.map fun s => s.app d_i)) = List.replicate bs m.fx.out_features := by
    rw [combOpt_shape m.xod _ _ hxod ?_, h2]
    intro A hA
    rcases hfd : m.fd with _ | d
    · rw [hfd] at hA
      simp at hA
    · rw [hfd] at hA
      simp only [Option.map_some', Option.some.injEq] at hA
      obtain ⟨hw, ho, hs⟩ := hd d hfd
      rw [← hA, happ d d_i hw hs, ho, h2]
  have h4 : shape (combOpt m.xoe (combOpt m.xod (combOpt m.xou (m.fx.app x)
        (m.fu.map fun s => s.app u_i)) (m.fd.map fun s => s.app d_i))
        (m.fe.map fun s => s.app x)) = List.replicate bs m.fx.out_features := by
    rw [combOpt_shape m.xoe _ _ hxoe ?_, h3]
    intro A hA
    rcases hfe : m.fe with _ | e
    · rw [hfe] at hA
      simp at hA
    · rw [hfe] at hA
      simp only [Option.map_some', Option.some.injEq] at hA
      obtain ⟨hw, ho, hi⟩ := he e hfe
      rw [← hA, happ e x hw (by rw [hi]; exact hx), ho, h3]
  unfold blockX
  rcases hres : m.residual
  · simpa using h4
  · simp only [if_true]
    rw [shape_addMat _ x (by rw [h4, hx]), h4]

theorem blockY_shape (m : BlockSSM) (bs : Nat) (u_i x5 : Mat)
    (hwfy : m.fy.WF) (hfyin : m.fy.in_features = m.fx.out_features)
    (hyu : ∀ g, m.fyu = some g → g.WF ∧ g.out_features = m.fy.out_features
          ∧ shape u_i = List.replicate bs g.in_features)
    (hxoyu : ∀ A B, shape A = shape B → shape (m.xoyu A B) = shape A)
    (hx5 : shape x5 = List.replicate bs m.fx.out_features) :
    shape (blockY m u_i x5) = List.replicate bs m.fy.out_features := by
  have hrows : ∀ row ∈ x5, row.length = m.fy.in_features := by
    rw [hfyin]
    exact rows_width_of_shape x5 bs _ hx5
  have h1 : shape (m.fy.app x5) = List.replicate bs m.fy.out_features := by
    rw [shape_app m.fy x5 hwfy hrows, length_of_shape x5 bs _ hx5]
  unfold blockY
  rw [combOpt_shape m.xoyu _ _ hxoyu ?_, h1]
  intro A hA
  rcases hfyu : m.fyu with _ | g
  · rw [hfyu] at hA
    simp at hA
  · rw [hfyu] at hA
    simp only [Option.map_some', Option.some.injEq] at hA
    obtain ⟨hw, ho, hs⟩ := hyu g hfyu
    rw [← hA, shape_app g u_i hw (rows_width_of_shape u_i bs _ hs),
      length_of_shape u_i bs _ hs, ho, h1]

theorem blockUnroll_length (m : BlockSSM) (U D : Seq) :
    ∀ (k i : Nat) (x : Mat), (blockUnroll m U D x i k).length = k := by
  intro k
  induction k with
  | zero => intro i x; rfl
  | succ n ih =>
    intro i x
    simp [blockUnroll, ih]

theorem blockUnroll_dims (m : BlockSSM) (U D : Seq) (bs N : Nat)
    (hwfx : m.fx.WF) (hin : m.fx.in_features = m.fx.out_features)
    (hwfy : m.fy.WF) (hfyin : m.fy.in_features = m.fx.out_features)
    (hu : ∀ u, m.fu = some u → u.WF ∧ u.out_features = m.fx.out_features)
    (hd : ∀ d, m.fd = some d → d.WF ∧ d.out_features = m.fx.out_features)
    (he : ∀ e, m.fe = some e → e.WF ∧ e.out_features = m.fx.out_features
          ∧ e.in_features = m.fx.out_features)
    (hyu : ∀ g, m.fyu = some g → g.WF ∧ g.out_features = m.fy.out_features)
    (hUu : ∀ i, i < N → ∀ u, m.fu = some u →
          shape (U.getD i default) = List.replicate bs u.in_features)
    (hUyu : ∀ i, i < N → ∀ g, m.fyu = some g →
          shape (U.getD i default) = List.replicate bs g.in_features)
    (hDd : ∀ i, i < N → ∀ d, m.fd = some d →
          shape (D.getD i default) = List.replicate bs d.in_features)
    (hxou : ∀ A B, shape A = shape B → shape (m.xou A B) = shape A)
    (hxod : ∀ A B, shape A = shape B → shape (m.xod A B) = shape A)
    (hxoe : ∀ A B, shape A = shape B → shape (m.xoe A B) = shape A)
    (hxoyu : ∀ A B, shape A = shape B → shape (m.xoyu A B) = shape A) :
    ∀ (k i : Nat) (x : Mat), i + k ≤ N →
      shape x = List.replicate bs m.fx.out_features →
      ∀ so ∈ blockUnroll m U D x i k,
        shape so.x = List.replicate bs m.fx.out_features
        ∧ shape so.y = List.replicate bs m.fy.out_features := by
  intro k
  induction k with
  | zero =>
    intro i x _ _ so hso
    simp [blockUnroll] at hso
  | succ n ih =>
    intro i x hik hx so hso
    have hiN : i < N := by omega
    have hxn : shape (blockX m (U.getD i default) (D.getD i default) x)
        = List.replicate bs m.fx.out_features := by
      refine blockX_shape m bs (U.getD i default) (D.getD i default) x hwfx hin ?_ ?_ he
        hxou hxod hxoe hx
      · intro u hfu
        obtain ⟨hw, ho⟩ := hu u hfu
        exact ⟨hw, ho, hUu i hiN u hfu⟩
      · intro d hfd
        obtain ⟨hw, ho⟩ := hd d hfd
        exact ⟨hw, ho, hDd i hiN d hfd⟩
    have hyn : shape (blockY m (U.getD i default)
          (blockX m (U.getD i default) (D.getD i default) x))
        = List.replicate bs m.fy.out_features := by
      refine blockY_shape m bs (U.getD i default) _ hwfy hfyin ?_ hxoyu hxn
      intro g hfyu
      obtain ⟨hw, ho⟩ := hyu g hfyu
      exact ⟨hw, ho, hUyu i hiN g hfyu⟩
    simp only [blockUnroll, List.mem_cons] at hso
    rcases hso with rfl | hso
    · exact ⟨hxn, hyn⟩
    · exact ih (i + 1) _ (by omega) hxn so hso

theorem mkBlockSSM_ok_elim (fx fy : SubMap) (fu fd fe fyu : Option SubMap)
    (xou xod xoe xoyu : Mat → Mat → Mat) (residual : Bool)
    (name : Option String) (ikm0 : List (String × String)) (m : BlockSSM)
    (hm : mkBlockSSM fx fy fu fd fe fyu xou xod xoe xoyu residual name ikm0
      = Except.ok m) :
    m = ⟨fx, fy, fu, fd, fe, fyu, xou, xod, xoe, xoyu, residual, name,
        mkInputKeyMap (blockDefaultInputKeys fu fd) ikm0,
        (blockDefaultOutputKeys fu fd fe).map (suffixKey name)⟩
    ∧ BlockSSM.checkFeatures fx fy fu fd = true := by
  unfold mkBlockSSM at hm
  simp only [] at hm
  rcases hupd : update_input_keys (blockDefaultInputKeys fu fd) ikm0 with e | v
  · rw [hupd] at hm
    simp at hm
  · rw [hupd] at hm
    by_cases hchk : BlockSSM.checkFeatures fx fy fu fd = true
    · rw [if_pos hchk] at hm
      have := Except.ok.inj hm
      exact ⟨this.symm, hchk⟩
    · rw [if_neg hchk] at hm
      simp at hm

theorem checkFeatures_elim (fx fy : SubMap) (fu fd : Option SubMap)
    (h : BlockSSM.checkFeatures fx fy fu fd = true) :
    fx.in_features = fx.out_features ∧ fy.in_features = fx.out_features
    ∧ (∀ u, fu = some u → u.out_features = fx.out_features)
    ∧ (∀ d, fd = some d → d.out_features = fx.out_features) := by
  unfold BlockSSM.checkFeatures at h
  simp only [Bool.and_eq_true, beq_iff_eq] at h
  obtain ⟨⟨⟨h1, h2⟩, h3⟩, h4⟩ := h
  refine ⟨h1, h2, ?_, ?_⟩
  · intro u hfu
    rw [hfu] at h3
    simpa using h3
  · intro d hfd
    rw [hfd] at h4
    simpa using h4

/-- Claim C8: for every constructed `BlockSSM` and every forward call whose
reference sequence `Yf` has leading length `N ≥ 1` (with well-formed
sub-maps, shape-preserving combination operators, and input tensors of the
declared shapes), the returned bag binds the `X_pred` and `Y_pred` output
keys to stacked trajectories of leading length exactly `N`, whose rows
have widths `fx.out_features` and `fy.out_features` respectively. -/
theorem C8_block_forward_traj_lengths_and_widths
    (fx fy : SubMap) (fu fd fe fyu : Option SubMap)
    (xou xod xoe xoyu : Mat → Mat → Mat) (residual : Bool)
    (name : Option String) (ikm0 : List (String × String)) (m : BlockSSM)
    (hm : mkBlockSSM fx fy fu fd fe fyu xou xod xoe xoyu residual name ikm0
      = Except.ok m)
    (data : Bag) (yf : Seq) (x0 : Mat) (U D : Seq) (bs N : Nat)
    (hyf : getSeq2 data m.input_key_map "Yf" = some yf)
    (hNyf : yf.length = N) (hN1 : 1 ≤ N)
    (hx0 : getMat2 data m.input_key_map "x0" = some x0)
    (hU1 : (fu.isSome || fyu.isSome) = true →
      getSeq2 data m.input_key_map "Uf" = some U)
    (hU2 : (fu.isSome || fyu.isSome) = false → U = [])
    (hD1 : fd.isSome = true → getSeq2 data m.input_key_map "Df" = some D)
    (hD2 : fd.isSome = false → D = [])
    (hwfx : fx.WF) (hwfy : fy.WF)
    (hwfu : ∀ u, fu = some u → u.WF) (hwfd : ∀ d, fd = some d → d.WF)
    (hwfe : ∀ e, fe = some e → e.WF ∧ e.out_features = fx.out_features
      ∧ e.in_features = fx.out_features)
    (hwfyu : ∀ g, fyu = some g → g.WF ∧ g.out_features = fy.out_features)
    (hxou : ∀ A B, shape A = shape B → shape (xou A B) = shape A)
    (hxod : ∀ A B, shape A = shape B → shape (xod A B) = shape A)
    (hxoe : ∀ A B, shape A = shape B → shape (xoe A B) = shape A)
    (hxoyu : ∀ A B, shape A = shape B → shape (xoyu A B) = shape A)
    (hx0s : shape x0 = List.replicate bs fx.out_features)
    (hUs : ∀ i, i < N → ∀ u, fu = some u →
      shape (U.getD i default) = List.replicate bs u.in_features)
    (hUys : ∀ i, i < N → ∀ g, fyu = some g →
      shape (U.getD i default) = List.replicate bs g.in_features)
    (hDs : ∀ i, i < N → ∀ d, fd = some d →
      shape (D.getD i default) = List.replicate bs d.in_features) :
    ∃ X Y rest,
      m.forward data = some ((suffixKey name "X_pred", Val.seq X)
        :: (suffixKey name "Y_pred", Val.seq Y) :: rest)
      ∧ X.length = N ∧ Y.length = N
      ∧ (∀ A ∈ X, ∀ row ∈ A, row.length = fx.out_features)
      ∧ (∀ A ∈ Y, ∀ row ∈ A, row.length = fy.out_features) := by
  obtain ⟨hmeq, hchk⟩ := mkBlockSSM_ok_elim fx fy fu fd fe fyu xou xod xoe xoyu
    residual name ikm0 m hm
  obtain ⟨hin, hfyin, hchu, hchd⟩ := checkFeatures_elim fx fy fu fd hchk
  subst hmeq
  set mI : BlockSSM := ⟨fx, fy, fu, fd, fe, fyu, xou, xod, xoe, xoyu, residual, name,
    mkInputKeyMap (blockDefaultInputKeys fu fd) ikm0,
    (blockDefaultOutputKeys fu fd fe).map (suffixKey name)⟩ with hmI
  have houts_len : (blockUnroll mI U D x0 0 yf.length).length = yf.length :=
    blockUnroll_length mI U D yf.length 0 x0
  have hdims : ∀ so ∈ blockUnroll mI U D x0 0 yf.length,
      shape so.x = List.replicate bs fx.out_features
      ∧ shape so.y = List.replicate bs fy.out_features := by
    refine blockUnroll_dims mI U D bs N hwfx hin hwfy hfyin ?_ ?_ ?_ ?_ ?_ ?_ ?_
      hxou hxod hxoe hxoyu yf.length 0 x0 (by omega) hx0s
    · intro u hfu
      exact ⟨hwfu u hfu, hchu u hfu⟩
    · intro d hfd
      exact ⟨hwfd d hfd, hchd d hfd⟩
    · exact hwfe
    · intro g hg
      exact ⟨(hwfyu g hg).1, (hwfyu g hg).2⟩
    · exact hUs
    · exact hUys
    · exact hDs
  set outs := blockUnroll mI U D x0 0 yf.length with houts
  have hXlen : (outs.map StepOut.x).length = N := by
    rw [List.length_map, houts_len, hNyf]
  have hYlen : (outs.map StepOut.y).length = N := by
    rw [List.length_map, houts_len, hNyf]
  have hXne : ((outs.map StepOut.x).isEmpty) = false := by
    rcases h : outs.map StepOut.x with _ | ⟨a, t⟩
    · rw [h] at hXlen
      simp at hXlen
      omega
    · rfl
  have hYne : ((outs.map StepOut.y).isEmpty) = false := by
    rcases h : outs.map StepOut.y with _ | ⟨a, t⟩
    · rw [h] at hYlen
      simp at hYlen
      omega
    · rfl
  have hcond : (yf.length != 0) = true := by
    have : yf.length ≠ 0 := by omega
    simpa using this
  have hUbind : (if (mI.fu.isSome || mI.fyu.isSome) && (yf.length != 0)
      then getSeq2 data mI.input_key_map "Uf" else some []) = some U := by
    have hfu_proj : mI.fu = fu := rfl
    have hfyu_proj : mI.fyu = fyu := rfl
    rw [hfu_proj, hfyu_proj, hcond]
    by_cases hc : (fu.isSome || fyu.isSome) = true
    · rw [hc]
      simpa using hU1 hc
    · have hc2 : (fu.isSome || fyu.isSome) = false := by
        simpa using hc
      rw [hc2]
      simp [hU2 hc2]
  have hDbind : (if mI.fd.isSome && (yf.length != 0)
      then getSeq2 data mI.input_key_map "Df" else some []) = some D := by
    have hfd_proj : mI.fd = fd := rfl
    rw [hfd_proj, hcond]
    by_cases hc : fd.isSome = true
    · rw [hc]
      simpa using hD1 hc
    · have hc2 : fd.isSome = false := by
        simpa using hc
      rw [hc2]
      simp [hD2 hc2]
  have hwidthX : ∀ A ∈ outs.map StepOut.x, ∀ row ∈ A, row.length = fx.out_features := by
    intro A hA row hrow
    obtain ⟨so, hso, rfl⟩ := List.mem_map.mp hA
    exact rows_width_of_shape so.x bs _ (hdims so hso).1 row hrow
  have hwidthY : ∀ A ∈ outs.map StepOut.y, ∀ row ∈ A, row.length = fy.out_features := by
    intro A hA row hrow
    obtain ⟨so, hso, rfl⟩ := List.mem_map.mp hA
    exact rows_width_of_shape so.y bs _ (hdims so hso).2 row hrow
  refine ⟨outs.map StepOut.x, outs.map StepOut.y,
    ((([outs.filterMap StepOut.fu, outs.filterMap StepOut.fd,
        outs.filterMap StepOut.fe].filter (fun l => !l.isEmpty)).zip
      (((if fu.isSome then ["fU"] else []) ++ (if fd.isSome then ["fD"] else [])
        ++ (if fe.isSome then ["fE"] else [])).map (suffixKey name))).filterMap
      (fun p => if p.1.isEmpty then none else some (p.2, Val.seq p.1)))
      ++ [(suffixKey name "reg_error", Val.scal mI.regError)],
    ?_, hXlen, hYlen, hwidthX, hwidthY⟩
  show BlockSSM.forward mI data = _
  unfold BlockSSM.forward
  rw [hyf, hx0]
  dsimp only
  rw [hUbind]
  dsimp only
  rw [hDbind]
  dsimp only
  rw [← houts]
  have hokeys : (blockDefaultOutputKeys fu fd fe).map (suffixKey name)
      = suffixKey name "reg_error" :: suffixKey name "X_pred" :: suffixKey name "Y_pred"
        :: (((if fu.isSome then ["fU"] else []) ++ (if fd.isSome then ["fD"] else [])
          ++ (if fe.isSome then ["fE"] else [])).map (suffixKey name)) := by
    simp [blockDefaultOutputKeys]
  rw [hokeys]
  simp only [List.tail_cons, List.headD_cons]
  rw [List.filter_cons, List.filter_cons]
  rw [hXne, hYne]
  simp only [Bool.not_false, if_pos]
  rw [List.zip_cons_cons, List.zip_cons_cons]
  rw [List.filterMap_cons, List.filterMap_cons]
  simp only [hXne, hYne, Bool.false_eq_true, if_false]
  simp [Option.pure_def]

/-- A concrete constructed BlockSSM (identity maps of width 1, no optional
channels, residual off) for witnesses. -/
def blockC8w : BlockSSM :=
  ⟨idm1, idm1, none, none, none, none, addMat, addMat, addMat, addMat, false,
    some "block_ssm", mkInputKeyMap (blockDefaultInputKeys none none) [],
    (blockDefaultOutputKeys none none none).map (suffixKey (some "block_ssm"))⟩

/-- A concrete forward input bag with horizon 2 for the C8 witness. -/
def dataC8 : Bag :=
  [("x0", Val.mat [[0]]), ("Yf", Val.seq [[[7]], [[8]]])]

/-- Claim C8 witness: the trajectory-shape theorem applied at a concrete
constructed instance with horizon 2. -/
theorem C8_block_forward_traj_witness :
    ∃ X Y rest,
      BlockSSM.forward blockC8w dataC8
        = some ((suffixKey (some "block_ssm") "X_pred", Val.seq X)
          :: (suffixKey (some "block_ssm") "Y_pred", Val.seq Y) :: rest)
      ∧ X.length = 2 ∧ Y.length = 2
      ∧ (∀ A ∈ X, ∀ row ∈ A, row.length = idm1.out_features)
      ∧ (∀ A ∈ Y, ∀ row ∈ A, row.length = idm1.out_features) :=
  C8_block_forward_traj_lengths_and_widths idm1 idm1 none none none none
    addMat addMat addMat addMat false (some "block_ssm") [] blockC8w rfl
    dataC8 [[[7]], [[8]]] [[0]] [] [] 1 2
    rfl rfl (by omega) rfl
    (fun h => absurd h (by decide)) (fun _ => rfl)
    (fun h => absurd h (by decide)) (fun _ => rfl)
    (fun _ h => h) (fun _ h => h)
    (fun u h => Option.noConfusion h) (fun d h => Option.noConfusion h)
    (fun e h => Option.noConfusion h) (fun g h => Option.noConfusion h)
    (fun A B h => shape_addMat A B h) (fun A B h => shape_addMat A B h)
    (fun A B h => shape_addMat A B h) (fun A B h => shape_addMat A B h)
    (by decide)
    (fun i _ u h => Option.noConfusion h)
    (fun i _ g h => Option.noConfusion h)
    (fun i _ d h => Option.noConfusion h)

theorem filterMap_length_of_all_isSome {α β : Type} (g : α → Option β) (l : List α)
    (h : ∀ a ∈ l, (g a).isSome = true) : (l.filterMap g).length = l.length := by
  induction l with
  | nil => rfl
  | cons a t ih =>
    rcases hg : g a with _ | b
    · have := h a (List.mem_cons_self a t)
      rw [hg] at this
      simp at this
    · simp only [List.filterMap_cons, hg, List.length_cons]
      rw [ih (fun a ha => h a (List.mem_cons_of_mem _ ha))]

theorem filterMap_nil_of_all_none {α β : Type} (g : α → Option β) (l : List α)
    (h : ∀ a ∈ l, g a = none) : l.filterMap g = [] := by
  induction l with
  | nil => rfl
  | cons a t ih =>
    simp only [List.filterMap_cons, h a (List.mem_cons_self a t)]
    exact ih (fun a ha => h a (List.mem_cons_of_mem _ ha))

theorem blockUnroll_channel_presence (m : BlockSSM) (U D : Seq) :
    ∀ (k i : Nat) (x : Mat), ∀ so ∈ blockUnroll m U D x i k,
      so.fu.isSome = m.fu.isSome ∧ so.fd.isSome = m.fd.isSome
        ∧ so.fe.isSome = m.fe.isSome := by
  intro k
  induction k with
  | zero =>
    intro i x so hso
    simp [blockUnroll] at hso
  | succ n ih =>
    intro i x so hso
    simp only [blockUnroll, List.mem_cons] at hso
    rcases hso with rfl | hso
    · refine ⟨?_, ?_, ?_⟩
      · show (m.fu.map (fun s => s.app (U.getD i default))).isSome = m.fu.isSome
        cases m.fu <;> rfl
      · show (m.fd.map (fun s => s.app (D.getD i default))).isSome = m.fd.isSome
        cases m.fd <;> rfl
      · show (m.fe.map (fun s => s.app x)).isSome = m.fe.isSome
        cases m.fe <;> rfl
    · exact ih (i + 1) _ so hso

theorem stacked_map_fst (tls : List (List Mat)) (ks : List String)
    (hlen : tls.length = ks.length) (hne : ∀ l ∈ tls, l.isEmpty = false) :
    ((tls.zip ks).filterMap
      (fun p => if p.1.isEmpty then none else some (p.2, Val.seq p.1))).map Prod.fst = ks := by
  induction tls generalizing ks with
  | nil =>
    cases ks with
    | nil => rfl
    | cons b kt => simp at hlen
  | cons a t ih =>
    cases ks with
    | nil => simp at hlen
    | cons b kt =>
      rw [List.zip_cons_cons, List.filterMap_cons]
      rw [hne a (List.mem_cons_self a t)]
      simp only [Bool.false_eq_true, if_false, List.map_cons]
      refine congrArg₂ _ rfl ?_
      exact ih kt (by simpa using hlen) (fun l hl => hne l (List.mem_cons_of_mem a hl))

theorem isEmpty_false_of_length_pos {α : Type} (l : List α) (h : 0 < l.length) :
    l.isEmpty = false := by
  cases l with
  | nil => simp at h
  | cons a t => rfl

theorem stacked_keys_flags (prs : List (List Mat × List String))
    (h : ∀ pr ∈ prs, (pr.1.isEmpty = false ∧ ∃ k, pr.2 = [k]) ∨ (pr.1 = [] ∧ pr.2 = [])) :
    ((((prs.map Prod.fst).filter (fun l => !l.isEmpty)).zip
        ((prs.map Prod.snd).flatten)).filterMap
      (fun p => if p.1.isEmpty then none else some (p.2, Val.seq p.1))).map Prod.fst
      = (prs.map Prod.snd).flatten := by
  induction prs with
  | nil => rfl
  | cons pr t ih =>
    have iht := ih (fun q hq => h q (List.mem_cons_of_mem pr hq))
    rcases h pr (List.mem_cons_self pr t) with ⟨hne, k, hk⟩ | ⟨hnil, hk⟩
    · simp only [List.map_cons, List.filter_cons, hne, Bool.not_false, if_pos,
        List.flatten_cons, hk]
      rw [List.singleton_append, List.zip_cons_cons, List.filterMap_cons]
      simp only [hne, Bool.false_eq_true, if_false, List.map_cons]
      exact congrArg₂ _ rfl iht
    · simp only [List.map_cons, List.filter_cons, hnil, hk, List.flatten_cons,
        List.nil_append, List.isEmpty_nil, Bool.not_true]
      simpa using iht

/-- Claim C9 (amended): for every constructed `BlockSSM` and every forward
call whose reference sequence has leading length at least 1, the returned
bag's key list is a permutation of the instance's declared output keys
(the default output keys suffixed with the instance name). At reference
length 0, only the regularization key is returned (see the
counterexample), so the horizon-0 part of the original claim fails. -/
theorem C9_output_key_set_horizon_pos
    (fx fy : SubMap) (fu fd fe fyu : Option SubMap)
    (xou xod xoe xoyu : Mat → Mat → Mat) (residual : Bool)
    (name : Option String) (ikm0 : List (String × String)) (m : BlockSSM)
    (hm : mkBlockSSM fx fy fu fd fe fyu xou xod xoe xoyu residual name ikm0
      = Except.ok m)
    (data : Bag) (yf : Seq) (x0 : Mat) (U D : Seq) (N : Nat)
    (hyf : getSeq2 data m.input_key_map "Yf" = some yf)
    (hNyf : yf.length = N) (hN1 : 1 ≤ N)
    (hx0 : getMat2 data m.input_key_map "x0" = some x0)
    (hU1 : (fu.isSome || fyu.isSome) = true →
      getSeq2 data m.input_key_map "Uf" = some U)
    (hU2 : (fu.isSome || fyu.isSome) = false → U = [])
    (hD1 : fd.isSome = true → getSeq2 data m.input_key_map "Df" = some D)
    (hD2 : fd.isSome = false → D = []) :
    ∃ out, m.forward data = some out
      ∧ (out.map Prod.fst).Perm m.output_keys := by
  obtain ⟨hmeq, hchk⟩ := mkBlockSSM_ok_elim fx fy fu fd fe fyu xou xod xoe xoyu
    residual name ikm0 m hm
  subst hmeq
  set mI : BlockSSM := ⟨fx, fy, fu, fd, fe, fyu, xou, xod, xoe, xoyu, residual, name,
    mkInputKeyMap (blockDefaultInputKeys fu fd) ikm0,
    (blockDefaultOutputKeys fu fd fe).map (suffixKey name)⟩ with hmI
  set outs := blockUnroll mI U D x0 0 yf.length with houts
  have houts_len : outs.length = yf.length := blockUnroll_length mI U D yf.length 0 x0
  have hXlen : (outs.map StepOut.x).length = N := by
    rw [List.length_map, houts_len, hNyf]
  have hYlen : (outs.map StepOut.y).length = N := by
    rw [List.length_map, houts_len, hNyf]
  have hXne : ((outs.map StepOut.x).isEmpty) = false :=
    isEmpty_false_of_length_pos _ (by omega)
  have hYne : ((outs.map StepOut.y).isEmpty) = false :=
    isEmpty_false_of_length_pos _ (by omega)
  have hcond : (yf.length != 0) = true := by
    have : yf.length ≠ 0 := by omega
    simpa using this
  have hUbind : (if (mI.fu.isSome || mI.fyu.isSome) && (yf.length != 0)
      then getSeq2 data mI.input_key_map "Uf" else some []) = some U := by
    have hfu_proj : mI.fu = fu := rfl
    have hfyu_proj : mI.fyu = fyu := rfl
    rw [hfu_proj, hfyu_proj, hcond]
    by_cases hc : (fu.isSome || fyu.isSome) = true
    · rw [hc]
      simpa using hU1 hc
    · have hc2 : (fu.isSome || fyu.isSome) = false := by
        simpa using hc
      rw [hc2]
      simp [hU2 hc2]
  have hDbind : (if mI.fd.isSome && (yf.length != 0)
      then getSeq2 data mI.input_key_map "Df" else some []) = some D := by
    have hfd_proj : mI.fd = fd := rfl
    rw [hfd_proj, hcond]
    by_cases hc : fd.isSome = true
    · rw [hc]
      simpa using hD1 hc
    · have hc2 : fd.isSome = false := by
        simpa using hc
      rw [hc2]
      simp [hD2 hc2]
  have hchan := blockUnroll_channel_presence mI U D yf.length 0 x0
  have hFU_some : ∀ u, fu = some u →
      (outs.filterMap StepOut.fu).length = yf.length := by
    intro u hfu
    rw [filterMap_length_of_all_isSome _ _ ?_, houts_len]
    intro so hso
    rw [(hchan so hso).1]
    show fu.isSome = true
    rw [hfu]
    rfl
  have hFU_none : fu = none → outs.filterMap StepOut.fu = [] := by
    intro hfu
    refine filterMap_nil_of_all_none _ _ ?_
    intro so hso
    have h2 := (hchan so hso).1
    rw [show mI.fu = fu from rfl, hfu] at h2
    simpa using h2
  have hFD_some : ∀ d, fd = some d →
      (outs.filterMap StepOut.fd).length = yf.length := by
    intro d hfd
    rw [filterMap_length_of_all_isSome _ _ ?_, houts_len]
    intro so hso
    rw [(hchan so hso).2.1]
    show fd.isSome = true
    rw [hfd]
    rfl
  have hFD_none : fd = none → outs.filterMap StepOut.fd = [] := by
    intro hfd
    refine filterMap_nil_of_all_none _ _ ?_
    intro so hso
    have h2 := (hchan so hso).2.1
    rw [show mI.fd = fd from rfl, hfd] at h2
    simpa using h2
  have hFE_some : ∀ e, fe = some e →
      (outs.filterMap StepOut.fe).length = yf.length := by
    intro e hfe
    rw [filterMap_length_of_all_isSome _ _ ?_, houts_len]
    intro so hso
    rw [(hchan so hso).2.2]
    show fe.isSome = true
    rw [hfe]
    rfl
  have hFE_none : fe = none → outs.filterMap StepOut.fe = [] := by
    intro hfe
    refine filterMap_nil_of_all_none _ _ ?_
    intro so hso
    have h2 := (hchan so hso).2.2
    rw [show mI.fe = fe from rfl, hfe] at h2
    simpa using h2
  have hfwd : BlockSSM.forward mI data = some
      ((([outs.map StepOut.x, outs.map StepOut.y, outs.filterMap StepOut.fu,
          outs.filterMap StepOut.fd, outs.filterMap StepOut.fe].filter
          (fun l => !l.isEmpty)).zip
        ((blockDefaultOutputKeys fu fd fe).map (suffixKey name)).tail).filterMap
        (fun p => if p.1.isEmpty then none else some (p.2, Val.seq p.1))
        ++ [(((blockDefaultOutputKeys fu fd fe).map (suffixKey name)).headD "",
          Val.scal mI.regError)]) := by
    unfold BlockSSM.forward
    rw [hyf, hx0]
    dsimp only
    rw [hUbind]
    dsimp only
    rw [hDbind]
  refine ⟨_, hfwd, ?_⟩
  have hflags : ∀ pr ∈ [(outs.map StepOut.x, [suffixKey name "X_pred"]),
      (outs.map StepOut.y, [suffixKey name "Y_pred"]),
      (outs.filterMap StepOut.fu, if fu.isSome then [suffixKey name "fU"] else []),
      (outs.filterMap StepOut.fd, if fd.isSome then [suffixKey name "fD"] else []),
      (outs.filterMap StepOut.fe, if fe.isSome then [suffixKey name "fE"] else [])],
      (pr.1.isEmpty = false ∧ ∃ k, pr.2 = [k]) ∨ (pr.1 = [] ∧ pr.2 = []) := by
    intro pr hpr
    simp only [List.mem_cons, List.not_mem_nil, or_false] at hpr
    rcases hpr with rfl | rfl | rfl | rfl | rfl
    · exact Or.inl ⟨hXne, _, rfl⟩
    · exact Or.inl ⟨hYne, _, rfl⟩
    · rcases hfu : fu with _ | u
      · exact Or.inr ⟨hFU_none hfu, rfl⟩
      · refine Or.inl ⟨isEmpty_false_of_length_pos _ ?_, _, rfl⟩
        rw [hFU_some u hfu]
        omega
    · rcases hfd : fd with _ | d
      · exact Or.inr ⟨hFD_none hfd, rfl⟩
      · refine Or.inl ⟨isEmpty_false_of_length_pos _ ?_, _, rfl⟩
        rw [hFD_some d hfd]
        omega
    · rcases hfe : fe with _ | e
      · exact Or.inr ⟨hFE_none hfe, rfl⟩
      · refine Or.inl ⟨isEmpty_false_of_length_pos _ ?_, _, rfl⟩
        rw [hFE_some e hfe]
        omega
  have hsk := stacked_keys_flags _ hflags
  have hmapeq : ([(outs.map StepOut.x, [suffixKey name "X_pred"]),
      (outs.map StepOut.y, [suffixKey name "Y_pred"]),
      (outs.filterMap StepOut.fu, if fu.isSome then [suffixKey name "fU"] else []),
      (outs.filterMap StepOut.fd, if fd.isSome then [suffixKey name "fD"] else []),
      (outs.filterMap StepOut.fe, if fe.isSome then [suffixKey name "fE"]
        else [])].map Prod.fst)
      = [outs.map StepOut.x, outs.map StepOut.y, outs.filterMap StepOut.fu,
        outs.filterMap StepOut.fd, outs.filterMap StepOut.fe] := rfl
  have hkeyseq : (([(outs.map StepOut.x, [suffixKey name "X_pred"]),
      (outs.map StepOut.y, [suffixKey name "Y_pred"]),
      (outs.filterMap StepOut.fu, if fu.isSome then [suffixKey name "fU"] else []),
      (outs.filterMap StepOut.fd, if fd.isSome then [suffixKey name "fD"] else []),
      (outs.filterMap StepOut.fe, if fe.isSome then [suffixKey name "fE"]
        else [])].map Prod.snd).flatten)
      = ((blockDefaultOutputKeys fu fd fe).map (suffixKey name)).tail := by
    simp only [List.map_cons, List.map_nil, List.flatten_cons, List.flatten_nil,
      blockDefaultOutputKeys]
    rcases fu <;> rcases fd <;> rcases fe <;> simp [suffixKey]
  rw [hmapeq, hkeyseq] at hsk
  rw [List.map_append, hsk]
  have hhead : ((blockDefaultOutputKeys fu fd fe).map (suffixKey name))
      = suffixKey name "reg_error"
        :: ((blockDefaultOutputKeys fu fd fe).map (suffixKey name)).tail := by
    simp [blockDefaultOutputKeys]
  have hheadD : (((blockDefaultOutputKeys fu fd fe).map (suffixKey name)).headD "")
      = suffixKey name "reg_error" := by
    simp [blockDefaultOutputKeys]
  rw [List.map_cons, List.map_nil, hheadD]
  show (((blockDefaultOutputKeys fu fd fe).map (suffixKey name)).tail
    ++ [suffixKey name "reg_error"]).Perm mI.output_keys
  rw [show mI.output_keys = (blockDefaultOutputKeys fu fd fe).map (suffixKey name)
    from rfl]
  rw [hhead]
  exact List.perm_append_singleton _ _

/-- Claim C9 witness: the key-set theorem applied at a concrete constructed
instance with horizon 2. -/
theorem C9_output_key_set_witness :
    ∃ out, BlockSSM.forward blockC8w dataC8 = some out
      ∧ (out.map Prod.fst).Perm blockC8w.output_keys :=
  C9_output_key_set_horizon_pos idm1 idm1 none none none none
    addMat addMat addMat addMat false (some "block_ssm") [] blockC8w rfl
    dataC8 [[[7]], [[8]]] [[0]] [] [] 2
    rfl rfl (by omega) rfl
    (fun h => absurd h (by decide)) (fun _ => rfl)
    (fun h => absurd h (by decide)) (fun _ => rfl)

/-- Claim C9 (counterexample): on a forward call whose reference sequence
has leading length zero, the returned bag holds only the regularization
key; the declared output keys `X_pred_block_ssm` and `Y_pred_block_ssm`
are missing, so the key set is not the declared output key set. -/
theorem C9_zero_horizon_counterexample :
    (BlockSSM.forward blockC8w [("x0", Val.mat [[0]]), ("Yf", Val.seq [])]).map
        (fun out => out.map Prod.fst)
      = some ["reg_error_block_ssm"]
    ∧ "X_pred_block_ssm" ∈ blockC8w.output_keys
    ∧ "X_pred_block_ssm" ∉ (["reg_error_block_ssm"] : List String) := by decide

/-- Claim C10: for a constructed `BlockSSM` whose state-transition and
observation sub-maps expose regularization errors `a` and `b`, and whose
input channel lacks a regularization accessor, the aggregate
regularization error equals `a + b` — the accessor-less sub-map
contributes zero without error — and every successful forward call, for
any input bag and hence any horizon length, returns exactly this value
under the (name-suffixed) regularization key. -/
theorem C10_reg_error_additive
    (fx fy u : SubMap) (a b : ℤ) (fyu : Option SubMap)
    (xou xod xoe xoyu : Mat → Mat → Mat) (residual : Bool)
    (name : Option String) (ikm0 : List (String × String)) (m : BlockSSM)
    (hm : mkBlockSSM fx fy (some u) none none fyu xou xod xoe xoyu residual
      name ikm0 = Except.ok m)
    (hra : fx.reg = some a) (hrb : fy.reg = some b) (hru : u.reg = none)
    (hryu : fyu = none) :
    m.regError = a + b
    ∧ ∀ (data out : Bag), m.forward data = some out →
        (suffixKey name "reg_error", Val.scal (a + b)) ∈ out := by
  obtain ⟨hmeq, hchk⟩ := mkBlockSSM_ok_elim fx fy (some u) none none fyu
    xou xod xoe xoyu residual name ikm0 m hm
  subst hmeq hryu
  have hreg : BlockSSM.regError ⟨fx, fy, some u, none, none, none, xou, xod, xoe,
      xoyu, residual, name, mkInputKeyMap (blockDefaultInputKeys (some u) none) ikm0,
      (blockDefaultOutputKeys (some u) none none).map (suffixKey name)⟩ = a + b := by
    simp [BlockSSM.regError, BlockSSM.children, hra, hrb, hru]
  refine ⟨hreg, ?_⟩
  intro data out hfwd
  unfold BlockSSM.forward at hfwd
  rcases h1 : getSeq2 data (mkInputKeyMap (blockDefaultInputKeys (some u) none) ikm0)
      "Yf" with _ | yf
  · rw [h1] at hfwd
    simp at hfwd
  rw [h1] at hfwd
  dsimp only at hfwd
  rcases h2 : getMat2 data (mkInputKeyMap (blockDefaultInputKeys (some u) none) ikm0)
      "x0" with _ | x0v
  · rw [h2] at hfwd
    simp at hfwd
  rw [h2] at hfwd
  dsimp only at hfwd
  rcases h3 : (if (((some u).isSome || (none : Option SubMap).isSome)
      && (yf.length != 0)) = true
      then getSeq2 data (mkInputKeyMap (blockDefaultInputKeys (some u) none) ikm0) "Uf"
      else some []) with _ | Uv
  · rw [h3] at hfwd
    simp at hfwd
  rw [h3] at hfwd
  dsimp only at hfwd
  rcases h4 : (if ((none : Option SubMap).isSome && (yf.length != 0)) = true
      then getSeq2 data (mkInputKeyMap (blockDefaultInputKeys (some u) none) ikm0) "Df"
      else some []) with _ | Dv
  · rw [h4] at hfwd
    simp at hfwd
  rw [h4] at hfwd
  dsimp only at hfwd
  obtain rfl := (Option.some.inj hfwd).symm
  refine List.mem_append.mpr (Or.inr ?_)
  have hheadD : (((blockDefaultOutputKeys (some u) none none).map
      (suffixKey name)).headD "") = suffixKey name "reg_error" := by
    simp [blockDefaultOutputKeys]
  rw [hheadD, hreg]
  exact List.mem_singleton.mpr rfl

/-- A width-1 identity sub-map exposing regularization error 3. -/
def regMap3 : SubMap := ⟨1, 1, fun v => v, some 3⟩

/-- A width-1 identity sub-map exposing regularization error 4. -/
def regMap4 : SubMap := ⟨1, 1, fun v => v, some 4⟩

/-- A concrete constructed BlockSSM for the C10 witness: `fx` and `fy`
carry regularization constants 3 and 4, the input channel has none. -/
def blockC10w : BlockSSM :=
  ⟨regMap3, regMap4, some idm1, none, none, none, addMat, addMat, addMat, addMat,
    false, some "block_ssm",
    mkInputKeyMap (blockDefaultInputKeys (some idm1) none) [],
    (blockDefaultOutputKeys (some idm1) none none).map (suffixKey (some "block_ssm"))⟩

/-- A concrete forward input bag with horizon 3 for the C10 witness. -/
def dataC10 : Bag :=
  [("x0", Val.mat [[0]]), ("Yf", Val.seq [[[1]], [[2]], [[9]]]),
   ("Uf", Val.seq [[[1]], [[1]], [[1]]])]

/-- Claim C10 witness: the regularization-additivity theorem applied at a
concrete instance and a concrete horizon-3 forward call. -/
theorem C10_reg_error_additive_witness :
    blockC10w.regError = 3 + 4
    ∧ ∃ out, blockC10w.forward dataC10 = some out
        ∧ (suffixKey (some "block_ssm") "reg_error", Val.scal (3 + 4)) ∈ out := by
  have h := C10_reg_error_additive regMap3 regMap4 idm1 3 4 none
    addMat addMat addMat addMat false (some "block_ssm") [] blockC10w
    rfl rfl rfl rfl rfl
  refine ⟨h.1, ?_⟩
  rcases hout : blockC10w.forward dataC10 with _ | out
  · exact absurd hout (by decide)
  · exact ⟨out, rfl, h.2 dataC10 out hout⟩

/-- The default input keys of a `BlackSSM`: `["x0", "Yf"] + extra_inputs`. -/
def blackDefaultInputKeys (extra_inputs : List String) : List String :=
  ["x0", "Yf"] ++ extra_inputs

/-- The default output keys of a `BlackSSM`. -/
def blackDefaultOutputKeys (fe : Option SubMap) : List String :=
  ["reg_error", "X_pred", "Y_pred"] ++ (if fe.isSome then ["fE"] else [])

/-- A constructed `BlackSSM` instance. -/
structure BlackSSM where
  fx : SubMap
  fy : SubMap
  fe : Option SubMap
  fyu : Option SubMap
  xoe : Mat → Mat → Mat
  xoyu : Mat → Mat → Mat
  name : Option String
  input_key_map : List (String × String)
  output_keys : List String
  extra_inputs : List String

/-- The assertion body of `BlackSSM.check_features`.  In the source this
method is DEFINED on `BlackSSM` but `BlackSSM.__init__` never calls it —
unlike `BlockSSM.__init__`, which calls `self.check_features()`. -/
def BlackSSM.checkFeatures (fx fy : SubMap) : Bool :=
  fx.out_features == fy.in_features

/-- `BlackSSM.__init__`: appends the extra input keys, runs
`SSM.update_input_keys`, suffixes output keys, stores the sub-maps — and
performs NO dimension check (`check_features` is never invoked). -/
def mkBlackSSM (fx fy : SubMap) (fe fyu : Option SubMap)
    (xoe xoyu : Mat → Mat → Mat) (name : Option String)
    (ikm0 : List (String × String)) (extra_inputs : List String) :
    Except String BlackSSM :=
  let dIn := blackDefaultInputKeys extra_inputs
  let dOut := blackDefaultOutputKeys fe
  match update_input_keys dIn ikm0 with
  | Except.error e => Except.error e
  | Except.ok _ =>
    Except.ok ⟨fx, fy, fe, fyu, xoe, xoyu, name,
      mkInputKeyMap dIn ikm0, dOut.map (suffixKey name), extra_inputs⟩

/-- Claim C2 (code bug): constructing a `BlackSSM` whose observation
sub-map's declared input width (3) differs from the state-transition
sub-map's declared output width (2) SUCCEEDS, because
`BlackSSM.__init__` never invokes the `check_features` method it defines
(whose assertion, evaluated here, is false); the analogous `BlockSSM`
construction fails at construction time as the claim demands. -/
theorem C2_black_ssm_mismatch_not_checked :
    (mkBlackSSM ⟨3, 2, fun v => v, none⟩ ⟨3, 5, fun v => v, none⟩ none none
      addMat addMat (some "black_ssm") [] []).isOk = true
    ∧ BlackSSM.checkFeatures ⟨3, 2, fun v => v, none⟩ ⟨3, 5, fun v => v, none⟩ = false
    ∧ (mkBlockSSM ⟨2, 2, fun v => v, none⟩ ⟨3, 5, fun v => v, none⟩ none none none none
      addMat addMat addMat addMat false (some "block_ssm") []).isOk = false := by
  decide

/-- The default input keys of a `TimeDelayBlockSSM`: its own `__init__`
appends `Up`/`Dp` to `["Xtd", "Yf"]`, then `BlockSSM.__init__` appends
`Uf`/`Df`. -/
def tdBlockDefaultInputKeys (fu fd : Option SubMap) : List String :=
  ["Xtd", "Yf"] ++ (if fu.isSome then ["Up"] else []) ++ (if fd.isSome then ["Dp"] else [])
    ++ (if fu.isSome then ["Uf"] else []) ++ (if fd.isSome then ["Df"] else [])

/-- A constructed `TimeDelayBlockSSM` instance. -/
structure TimeDelayBlockSSM where
  fx : SubMap
  fy : SubMap
  fu : Option SubMap
  fd : Option SubMap
  fe : Option SubMap
  xou : Mat → Mat → Mat
  xod : Mat → Mat → Mat
  xoe : Mat → Mat → Mat
  residual : Bool
  name : Option String
  input_key_map : List (String × String)
  output_keys : List String
  timedelay : Nat

/-- The assertions of the OVERRIDING `TimeDelayBlockSSM.check_features`:
only the `fu`/`fd` output widths are compared against `fx.out_features`.
Neither `fx.in_features` (against `(T+1) * nx`) nor `fy` is checked, and
`timedelay` is not consulted at all. -/
def TimeDelayBlockSSM.checkFeatures (fx : SubMap) (fu fd : Option SubMap) : Bool :=
  (match fu with
   | some u => u.out_features == fx.out_features
   | none => true) &&
  (match fd with
   | some d => d.out_features == fx.out_features
   | none => true)

/-- `TimeDelayBlockSSM.__init__`: appends the past-window default keys,
delegates to `BlockSSM.__init__` (key assertion, output-key suffixing,
and the dynamically dispatched `check_features`, which resolves to the
override above), re-runs `check_features`, then stores `timedelay`. -/
def mkTimeDelayBlockSSM (fx fy : SubMap) (fu fd fe : Option SubMap)
    (xou xod xoe : Mat → Mat → Mat) (residual : Bool) (name : Option String)
    (ikm0 : List (String × String)) (timedelay : Nat) :
    Except String TimeDelayBlockSSM :=
  let dIn := tdBlockDefaultInputKeys fu fd
  let dOut := blockDefaultOutputKeys fu fd fe
  match update_input_keys dIn ikm0 with
  | Except.error e => Except.error e
  | Except.ok _ =>
    if TimeDelayBlockSSM.checkFeatures fx fu fd then
      Except.ok ⟨fx, fy, fu, fd, fe, xou, xod, xoe, residual, name,
        mkInputKeyMap dIn ikm0, dOut.map (suffixKey name), timedelay⟩
    else Except.error "dimension mismatch"

/-- Claim C5 (counterexample): a `TimeDelayBlockSSM` whose state-transition
sub-map has `in_features = 5`, different from
`(timedelay + 1) * out_features = (1 + 1) * 2 = 4`, is accepted at
construction — no `(T+1) × width` check exists. -/
theorem C5_no_delay_width_check_counterexample :
    (mkTimeDelayBlockSSM ⟨5, 2, fun v => v, none⟩ ⟨5, 1, fun v => v, none⟩
      none none none addMat addMat addMat false (some "block_ssm") [] 1).isOk = true
    ∧ (5 : Nat) ≠ (1 + 1) * 2 := by decide

/-- Claim C5 (amended): `TimeDelayBlockSSM` construction with the default
input-key mapping succeeds whenever each enabled channel's OUTPUT width
equals the state-transition output width — regardless of any sub-map's
input width and regardless of the configured delay depth, so no
`(T+1) × channel-width` input-width requirement is enforced at
construction. -/
theorem C5_td_construction_ignores_delay_widths
    (fx fy : SubMap) (fu fd fe : Option SubMap)
    (xou xod xoe : Mat → Mat → Mat) (residual : Bool) (name : Option String)
    (timedelay : Nat)
    (hu : ∀ u, fu = some u → u.out_features = fx.out_features)
    (hd : ∀ d, fd = some d → d.out_features = fx.out_features) :
    (mkTimeDelayBlockSSM fx fy fu fd fe xou xod xoe residual name []
      timedelay).isOk = true := by
  unfold mkTimeDelayBlockSSM
  simp only []
  have h1 : update_input_keys (tdBlockDefaultInputKeys fu fd) []
      = Except.ok ((mkInputKeyMap (tdBlockDefaultInputKeys fu fd) []).map Prod.snd) := by
    unfold update_input_keys
    rw [if_pos]
    simp [mkInputKeyMap]
  rw [h1]
  dsimp only
  rw [if_pos]
  · rfl
  · unfold TimeDelayBlockSSM.checkFeatures
    rcases hfu : fu with _ | u <;> rcases hfd : fd with _ | d
    · rfl
    · simp [hd d hfd]
    · simp [hu u hfu]
    · simp [hu u hfu, hd d hfd]

/-- Claim C5 witness: the amended theorem at a concrete instance whose
`fx` input width (7) bears no relation to `(T+1) × out_features` for the
configured `T = 3`. -/
theorem C5_td_construction_ignores_delay_widths_witness :
    (mkTimeDelayBlockSSM ⟨7, 2, fun v => v, none⟩ ⟨9, 4, fun v => v, none⟩
      (some ⟨11, 2, fun v => v, none⟩) none none addMat addMat addMat false
      (some "block_ssm") [] 3).isOk = true :=
  C5_td_construction_ignores_delay_widths ⟨7, 2, fun v => v, none⟩
    ⟨9, 4, fun v => v, none⟩ (some ⟨11, 2, fun v => v, none⟩) none none
    addMat addMat addMat false (some "block_ssm") 3
    (fun u hu => by cases hu; rfl) (fun d hd => Option.noConfusion hd)

/-- Membership of a default key in the instance's input-key map
(`'Uf' in self.input_key_map`). -/
def hasKey (ikm : List (String × String)) (k : String) : Bool :=
  decide (k ∈ ikm.map Prod.fst)

/-- The Python slice `l[-T:]`: for `T = 0` it is the WHOLE list (since
`-0 == 0`), else the last `T` entries. -/
def negSlice (l : Seq) (T : Nat) : Seq :=
  if T = 0 then l else l.drop (l.length - T)

/-- The per-step values of one iteration of `TimeDelayBlockSSM.forward`,
including the delay buffer as it stands after the slide. -/
structure TDStepOut where
  x : Mat
  y : Mat
  fu : Option Mat
  fd : Option Mat
  fe : Option Mat
  buf : Seq
deriving DecidableEq, Inhabited

/-- One iteration of the `TimeDelayBlockSSM.forward` loop (lines 506-531):
every channel reads its flattened `T+1` window; the computed state —
after the channel combinations and the residual addition — is appended to
the sliding buffer (drop oldest, append newest). -/
def tdBlockStep (m : TimeDelayBlockSSM) (Utd Dtd : Seq) (i : Nat) (Xtd : Seq) :
    TDStepOut :=
  let x_prev := Xtd.getLastD []
  let x_delayed := catRows Xtd
  let x1 := m.fx.app x_delayed
  let fuv := m.fu.map (fun s => s.app (catRows (window Utd i (m.timedelay + 1))))
  let x2 := combOpt m.xou x1 fuv
  let fdv := m.fd.map (fun s => s.app (catRows (window Dtd i (m.timedelay + 1))))
  let x3 := combOpt m.xod x2 fdv
  let fev := m.fe.map (fun s => s.app x_delayed)
  let x4 := combOpt m.xoe x3 fev
  let x5 := if m.residual then addMat x4 x_prev else x4
  let buf := (Xtd ++ [x5]).tail
  let y := m.fy.app x_delayed
  ⟨x5, y, fuv, fdv, fev, buf⟩

/-- The unrolled loop of `TimeDelayBlockSSM.forward`. -/
def tdBlockUnroll (m : TimeDelayBlockSSM) (Utd Dtd : Seq) :
    Seq → Nat → Nat → List TDStepOut
  | _, _, 0 => []
  | Xtd, i, k + 1 =>
    let so := tdBlockStep m Utd Dtd i Xtd
    so :: tdBlockUnroll m Utd Dtd so.buf (i + 1) k

/-- The inherited `reg_error` of a `TimeDelayBlockSSM`: sum over the owned
sub-maps that expose the accessor. -/
def TimeDelayBlockSSM.regError (m : TimeDelayBlockSSM) : ℤ :=
  (([m.fx, m.fy] ++ m.fu.toList ++ m.fd.toList ++ m.fe.toList).filterMap
    SubMap.reg).sum

/-- `TimeDelayBlockSSM.forward`: build the `Utd`/`Dtd` windows from the
past and future tensors when both keys are mapped, then unroll. -/
def TimeDelayBlockSSM.forward (m : TimeDelayBlockSSM) (data : Bag) : Option Bag :=
  match getSeq2 data m.input_key_map "Yf" with
  | none => none
  | some yf =>
    match (if hasKey m.input_key_map "Uf" && hasKey m.input_key_map "Up" then
        (match getSeq2 data m.input_key_map "Up", getSeq2 data m.input_key_map "Uf" with
         | some up, some uf => some (negSlice up m.timedelay ++ uf)
         | _, _ => none)
      else some []) with
    | none => none
    | some Utd =>
      match (if hasKey m.input_key_map "Df" && hasKey m.input_key_map "Dp" then
          (match getSeq2 data m.input_key_map "Dp", getSeq2 data m.input_key_map "Df" with
           | some dp, some df => some (negSlice dp m.timedelay ++ df)
           | _, _ => none)
        else some []) with
      | none => none
      | some Dtd =>
        match getSeq2 data m.input_key_map "Xtd" with
        | none => none
        | some Xtd =>
          let outs := tdBlockUnroll m Utd Dtd Xtd 0 yf.length
          let X := outs.map TDStepOut.x
          let Y := outs.map TDStepOut.y
          let FU := outs.filterMap TDStepOut.fu
          let FD := outs.filterMap TDStepOut.fd
          let FE := outs.filterMap TDStepOut.fe
          let tls := [X, Y, FU, FD, FE].filter (fun l => !l.isEmpty)
          let stacked := (tls.zip m.output_keys.tail).filterMap
            (fun p => if p.1.isEmpty then none else some (p.2, Val.seq p.1))
          some (stacked ++ [(m.output_keys.headD "", Val.scal m.regError)])

/-- A constructed `TimeDelayBlackSSM` instance. -/
structure TimeDelayBlackSSM where
  fx : SubMap
  fy : SubMap
  fe : Option SubMap
  xoe : Mat → Mat → Mat
  name : Option String
  input_key_map : List (String × String)
  output_keys : List String
  extra_inputs : List String
  timedelay : Nat

/-- The inherited `reg_error` of a `TimeDelayBlackSSM`. -/
def TimeDelayBlackSSM.regError (m : TimeDelayBlackSSM) : ℤ :=
  (([m.fx, m.fy] ++ m.fe.toList).filterMap SubMap.reg).sum

/-- The per-step values of one iteration of `TimeDelayBlackSSM.forward`. -/
structure TDBStepOut where
  x : Mat
  y : Mat
  fe : Option Mat
  buf : Seq
deriving DecidableEq, Inhabited

/-- One iteration of the `TimeDelayBlackSSM.forward` loop (lines 583-603):
the buffer slides IMMEDIATELY after `fx` is applied — BEFORE the optional
error-channel combination — so the buffer receives the raw `fx` output
while the trajectory receives the error-combined state. -/
def tdBlackStep (m : TimeDelayBlackSSM) (Utd Dtd : Seq) (hasU hasD : Bool)
    (i : Nat) (Xtd : Seq) : TDBStepOut :=
  let x_delayed := catRows Xtd
  let f1 := x_delayed
  let f2 := if hasU then hcatMat f1 (catRows (window Utd i (m.timedelay + 1))) else f1
  let f3 := if hasD then hcatMat f2 (catRows (window Dtd i (m.timedelay + 1))) else f2
  let x1 := m.fx.app f3
  let buf := (Xtd ++ [x1]).tail
  let res : Mat × Option Mat := match m.fe with
    | some e => (m.xoe x1 (e.app x_delayed), some (e.app x_delayed))
    | none => (x1, none)
  let y := m.fy.app x_delayed
  ⟨res.1, y, res.2, buf⟩

/-- The unrolled loop of `TimeDelayBlackSSM.forward`. -/
def tdBlackUnroll (m : TimeDelayBlackSSM) (Utd Dtd : Seq) (hasU hasD : Bool) :
    Seq → Nat → Nat → List TDBStepOut
  | _, _, 0 => []
  | Xtd, i, k + 1 =>
    let so := tdBlackStep m Utd Dtd hasU hasD i Xtd
    so :: tdBlackUnroll m Utd Dtd hasU hasD so.buf (i + 1) k

/-- `TimeDelayBlackSSM.forward`. -/
def TimeDelayBlackSSM.forward (m : TimeDelayBlackSSM) (data : Bag) : Option Bag :=
  match getSeq2 data m.input_key_map "Yf" with
  | none => none
  | some yf =>
    match (if hasKey m.input_key_map "Uf" && hasKey m.input_key_map "Up" then
        (match getSeq2 data m.input_key_map "Up", getSeq2 data m.input_key_map "Uf" with
         | some up, some uf => some (negSlice up m.timedelay ++ uf)
         | _, _ => none)
      else some []) with
    | none => none
    | some Utd =>
      match (if hasKey m.input_key_map "Df" && hasKey m.input_key_map "Dp" then
          (match getSeq2 data m.input_key_map "Dp", getSeq2 data m.input_key_map "Df" with
           | some dp, some df => some (negSlice dp m.timedelay ++ df)
           | _, _ => none)
        else some []) with
      | none => none
      | some Dtd =>
        match getSeq2 data m.input_key_map "Xtd" with
        | none => none
        | some Xtd =>
          let outs := tdBlackUnroll m Utd Dtd
            (hasKey m.input_key_map "Uf" && hasKey m.input_key_map "Up")
            (hasKey m.input_key_map "Df" && hasKey m.input_key_map "Dp") Xtd 0 yf.length
          let X := outs.map TDBStepOut.x
          let Y := outs.map TDBStepOut.y
          let FE := outs.filterMap TDBStepOut.fe
          let tls := [X, Y, FE].filter (fun l => !l.isEmpty)
          let stacked := (tls.zip m.output_keys.tail).filterMap
            (fun p => if p.1.isEmpty then none else some (p.2, Val.seq p.1))
          some (stacked ++ [(m.output_keys.headD "", Val.scal m.regError)])

theorem getLast?_append_singleton {α : Type} (l : List α) (a : α) :
    (l ++ [a]).getLast? = some a := by
  rw [← List.concat_eq_append]
  simp [List.getLast?_concat]

/-- Claim C4 (amended): in `TimeDelayBlockSSM.forward`, after every step
the newest delay-buffer entry equals that step's trajectory state — the
fully computed state including channel combinations and residual; in
`TimeDelayBlackSSM.forward` the same holds only when no error channel is
configured, because there the buffer slides BEFORE the error-channel
combination (see the counterexample). -/
theorem C4_buffer_newest_is_trajectory_latest
    (mb : TimeDelayBlockSSM) (mk2 : TimeDelayBlackSSM)
    (Utd Dtd Utd2 Dtd2 : Seq) (hasU hasD : Bool)
    (hfe : mk2.fe = none) :
    (∀ (k i : Nat) (Xtd : Seq), Xtd ≠ [] →
      ∀ so ∈ tdBlockUnroll mb Utd Dtd Xtd i k, so.buf.getLast? = some so.x)
    ∧ (∀ (k i : Nat) (Xtd : Seq), Xtd ≠ [] →
      ∀ so ∈ tdBlackUnroll mk2 Utd2 Dtd2 hasU hasD Xtd i k,
        so.buf.getLast? = some so.x) := by
  constructor
  · intro k
    induction k with
    | zero =>
      intro i Xtd _ so hso
      simp [tdBlockUnroll] at hso
    | succ n ih =>
      intro i Xtd hne so hso
      rcases Xtd with _ | ⟨h0, t⟩
      · exact absurd rfl hne
      simp only [tdBlockUnroll, List.mem_cons] at hso
      have hbuf : (tdBlockStep mb Utd Dtd i (h0 :: t)).buf
          = t ++ [(tdBlockStep mb Utd Dtd i (h0 :: t)).x] := rfl
      rcases hso with rfl | hso
      · rw [hbuf]
        exact getLast?_append_singleton _ _
      · refine ih (i + 1) _ ?_ so hso
        rw [hbuf]
        simp
  · intro k
    induction k with
    | zero =>
      intro i Xtd _ so hso
      simp [tdBlackUnroll] at hso
    | succ n ih =>
      intro i Xtd hne so hso
      rcases Xtd with _ | ⟨h0, t⟩
      · exact absurd rfl hne
      simp only [tdBlackUnroll, List.mem_cons] at hso
      have hbuf : (tdBlackStep mk2 Utd2 Dtd2 hasU hasD i (h0 :: t)).buf
          = t ++ [(tdBlackStep mk2 Utd2 Dtd2 hasU hasD i (h0 :: t)).x] := by
        simp only [tdBlackStep, hfe, List.cons_append, List.tail_cons]
      rcases hso with rfl | hso
      · rw [hbuf]
        exact getLast?_append_singleton _ _
      · refine ih (i + 1) _ ?_ so hso
        rw [hbuf]
        simp

/-- A width-1 sub-map adding 1 to every entry, used as an error channel. -/
def plusOneMap : SubMap := ⟨1, 1, fun v => v.map (fun t => t + 1), none⟩

/-- A concrete `TimeDelayBlackSSM` with an error channel. -/
def tdBlackCE : TimeDelayBlackSSM :=
  ⟨idm1, idm1, some plusOneMap, addMat, some "black_ssm",
    [("Xtd", "Xtd"), ("Yf", "Yf")],
    ["reg_error_black_ssm", "X_pred_black_ssm", "Y_pred_black_ssm", "fE_black_ssm"],
    [], 0⟩

/-- Claim C4 (counterexample): in a `TimeDelayBlackSSM` with an error
channel, after one forward step the buffer's newest entry is the raw `fx`
output `[[0]]` while the trajectory's latest entry is the error-combined
state `[[1]]` — the buffer slides before the error combination, so the
two differ. -/
theorem C4_td_black_buffer_pre_error_counterexample :
    ((tdBlackUnroll tdBlackCE [] [] false false [[[0]]] 0 1).map
        (fun so => (so.x, so.buf.getLast?)))
      = [([[1]], some [[0]])]
    ∧ some ([[1]] : Mat) ≠ some ([[0]] : Mat) := by decide

/-- A concrete `TimeDelayBlockSSM` with an error channel and residual on. -/
def tdBlockW : TimeDelayBlockSSM :=
  ⟨idm1, idm1, none, none, some plusOneMap, addMat, addMat, addMat, true,
    some "block_ssm", [("Xtd", "Xtd"), ("Yf", "Yf")],
    ["reg_error_block_ssm", "X_pred_block_ssm", "Y_pred_block_ssm", "fE_block_ssm"],
    0⟩

/-- A concrete `TimeDelayBlackSSM` without an error channel. -/
def tdBlackW : TimeDelayBlackSSM :=
  ⟨idm1, idm1, none, addMat, some "black_ssm", [("Xtd", "Xtd"), ("Yf", "Yf")],
    ["reg_error_black_ssm", "X_pred_black_ssm", "Y_pred_black_ssm"], [], 0⟩

/-- Claim C4 witness: the amended theorem applied at concrete two-step
unrolls of both time-delay variants. -/
theorem C4_buffer_newest_is_trajectory_latest_witness :
    ((tdBlockUnroll tdBlockW [] [] [[[3]]] 0 2).headD default).buf.getLast?
      = some ((tdBlockUnroll tdBlockW [] [] [[[3]]] 0 2).headD default).x
    ∧ ((tdBlackUnroll tdBlackW [] [] false false [[[3]]] 0 2).headD
        default).buf.getLast?
      = some ((tdBlackUnroll tdBlackW [] [] false false [[[3]]] 0 2).headD
        default).x :=
  ⟨(C4_buffer_newest_is_trajectory_latest tdBlockW tdBlackW [] [] [] [] false false
      rfl).1 2 0 [[[3]]] (by decide) _ (by decide),
   (C4_buffer_newest_is_trajectory_latest tdBlockW tdBlackW [] [] [] [] false false
      rfl).2 2 0 [[[3]]] (by decide) _ (by decide)⟩

/-- A constructed `ODEAuto_MultiStep` instance.  `fx` is the multi-step
integrator consuming the whole state window; `fxReg` models its optional
regularization accessor. -/
structure ODEAutoMS where
  fx : Seq → Mat
  fy : SubMap
  fxReg : Option ℤ
  name : Option String
  input_key_map : List (String × String)
  output_keys : List String

/-- `ODEAuto_MultiStep.__init__` (via `ODEAuto.__init__` and `SSM.__init__`):
no dimension checks, only the key bookkeeping. -/
def mkODEAutoMS (fx : Seq → Mat) (fy : SubMap) (fxReg : Option ℤ)
    (name : Option String) (ikm0 : List (String × String)) :
    Except String ODEAutoMS :=
  match update_input_keys ["x0", "Yf", "Yp"] ikm0 with
  | Except.error e => Except.error e
  | Except.ok _ =>
    Except.ok ⟨fx, fy, fxReg, name, mkInputKeyMap ["x0", "Yf", "Yp"] ikm0,
      ["reg_error", "X_pred", "Y_pred"].map (suffixKey name)⟩

/-- The inherited `reg_error` of an `ODEAuto_MultiStep`. -/
def ODEAutoMS.regError (m : ODEAutoMS) : ℤ :=
  ([m.fxReg, m.fy.reg].filterMap id).sum

/-- The unrolled loop of `ODEAuto_MultiStep.forward`: one new state from
the whole window, append it, drop the oldest window entry. -/
def odeAutoMSUnroll (fx : Seq → Mat) (fy : SubMap) : Seq → Nat → List (Mat × Mat)
  | _, 0 => []
  | x3D, k + 1 =>
    let x2 := fx x3D
    (x2, fy.app x2) :: odeAutoMSUnroll fx fy (x3D.tail ++ [x2]) k

/-- `ODEAuto_MultiStep.forward`: the step count is
`len(Yp) - len(x0) + 1` (as an integer; an empty range when negative). -/
def ODEAutoMS.forward (m : ODEAutoMS) (data : Bag) : Option Bag :=
  match getSeq2 data m.input_key_map "Yp" with
  | none => none
  | some yp =>
    match getSeq2 data m.input_key_map "x0" with
    | none => none
    | some x3D =>
      let outs := odeAutoMSUnroll m.fx m.fy x3D (yp.length + 1 - x3D.length)
      let X := outs.map Prod.fst
      let Y := outs.map Prod.snd
      let tls := [X, Y].filter (fun l => !l.isEmpty)
      let stacked := (tls.zip m.output_keys.tail).filterMap
        (fun p => if p.1.isEmpty then none else some (p.2, Val.seq p.1))
      some (stacked ++ [(m.output_keys.headD "", Val.scal m.regError)])

/-- A constructed `ODENonAuto_MultiStep` instance. -/
structure ODENonAutoMS where
  fx : Seq → Mat → Mat → Mat
  fy : SubMap
  fxReg : Option ℤ
  extra_inputs : List String
  name : Option String
  input_key_map : List (String × String)
  output_keys : List String

/-- `ODENonAuto_MultiStep.__init__`: key bookkeeping only. -/
def mkODENonAutoMS (fx : Seq → Mat → Mat → Mat) (fy : SubMap) (fxReg : Option ℤ)
    (name : Option String) (ikm0 : List (String × String))
    (extra_inputs : List String) : Except String ODENonAutoMS :=
  match update_input_keys (["x0", "Yf", "Yp", "Time"] ++ extra_inputs) ikm0 with
  | Except.error e => Except.error e
  | Except.ok _ =>
    Except.ok ⟨fx, fy, fxReg, extra_inputs, name,
      mkInputKeyMap (["x0", "Yf", "Yp", "Time"] ++ extra_inputs) ikm0,
      ["reg_error", "X_pred", "Y_pred"].map (suffixKey name)⟩

/-- The inherited `reg_error` of an `ODENonAuto_MultiStep`. -/
def ODENonAutoMS.regError (m : ODENonAutoMS) : ℤ :=
  ([m.fxReg, m.fy.reg].filterMap id).sum

/-- Feature-axis concatenation of two time-major tensors. -/
def hcatSeq (A B : Seq) : Seq := List.zipWith hcatMat A B

/-- `torch.cat([...], dim=-1)` over a list of time-major tensors. -/
def hcatSeqs : List Seq → Seq
  | [] => []
  | s :: rest => rest.foldl hcatSeq s

/-- The unrolled loop of `ODENonAuto_MultiStep.forward`: the integrator
additionally receives the grid samples `inputs[i]` and `Time[i]`. -/
def odeNonAutoMSUnroll (fx : Seq → Mat → Mat → Mat) (fy : SubMap)
    (inputs time : Seq) : Seq → Nat → Nat → List (Mat × Mat)
  | _, _, 0 => []
  | x3D, i, k + 1 =>
    let x2 := fx x3D (inputs.getD i default) (time.getD i default)
    (x2, fy.app x2) :: odeNonAutoMSUnroll fx fy inputs time (x3D.tail ++ [x2])
      (i + 1) k

/-- `ODENonAuto_MultiStep.forward`. -/
def ODENonAutoMS.forward (m : ODENonAutoMS) (data : Bag) : Option Bag :=
  match getSeq2 data m.input_key_map "Yp" with
  | none => none
  | some yp =>
    match getSeq2 data m.input_key_map "x0" with
    | none => none
    | some x3D =>
      match getSeq2 data m.input_key_map "Time" with
      | none => none
      | some time =>
        match m.extra_inputs.mapM (getSeqRaw data) with
        | none => none
        | some exs =>
          let inputs := if m.extra_inputs.isEmpty then time else hcatSeqs exs
          let outs := odeNonAutoMSUnroll m.fx m.fy inputs time x3D 0
            (yp.length + 1 - x3D.length)
          let X := outs.map Prod.fst
          let Y := outs.map Prod.snd
          let tls := [X, Y].filter (fun l => !l.isEmpty)
          let stacked := (tls.zip m.output_keys.tail).filterMap
            (fun p => if p.1.isEmpty then none else some (p.2, Val.seq p.1))
          some (stacked ++ [(m.output_keys.headD "", Val.scal m.regError)])

theorem odeAutoMSUnroll_length (fx : Seq → Mat) (fy : SubMap) :
    ∀ (k : Nat) (x3D : Seq), (odeAutoMSUnroll fx fy x3D k).length = k := by
  intro k
  induction k with
  | zero => intro x3D; rfl
  | succ n ih =>
    intro x3D
    simp [odeAutoMSUnroll, ih]

theorem odeNonAutoMSUnroll_length (fx : Seq → Mat → Mat → Mat) (fy : SubMap)
    (inputs time : Seq) :
    ∀ (k i : Nat) (x3D : Seq),
      (odeNonAutoMSUnroll fx fy inputs time x3D i k).length = k := by
  intro k
  induction k with
  | zero => intro i x3D; rfl
  | succ n ih =>
    intro i x3D
    simp [odeNonAutoMSUnroll, ih]

theorem mkODEAutoMS_ok_elim (fx : Seq → Mat) (fy : SubMap) (fxReg : Option ℤ)
    (name : Option String) (ikm0 : List (String × String)) (m : ODEAutoMS)
    (hm : mkODEAutoMS fx fy fxReg name ikm0 = Except.ok m) :
    m = ⟨fx, fy, fxReg, name, mkInputKeyMap ["x0", "Yf", "Yp"] ikm0,
      ["reg_error", "X_pred", "Y_pred"].map (suffixKey name)⟩ := by
  unfold mkODEAutoMS at hm
  rcases hupd : update_input_keys ["x0", "Yf", "Yp"] ikm0 with e | v
  · rw [hupd] at hm
    simp at hm
  · rw [hupd] at hm
    exact (Except.ok.inj hm).symm

theorem mkODENonAutoMS_ok_elim (fx : Seq → Mat → Mat → Mat) (fy : SubMap)
    (fxReg : Option ℤ) (name : Option String) (ikm0 : List (String × String))
    (extra_inputs : List String) (m : ODENonAutoMS)
    (hm : mkODENonAutoMS fx fy fxReg name ikm0 extra_inputs = Except.ok m) :
    m = ⟨fx, fy, fxReg, extra_inputs, name,
      mkInputKeyMap (["x0", "Yf", "Yp", "Time"] ++ extra_inputs) ikm0,
      ["reg_error", "X_pred", "Y_pred"].map (suffixKey name)⟩ := by
  unfold mkODENonAutoMS at hm
  rcases hupd : update_input_keys (["x0", "Yf", "Yp", "Time"] ++ extra_inputs) ikm0
    with e | v
  · rw [hupd] at hm
    simp at hm
  · rw [hupd] at hm
    exact (Except.ok.inj hm).symm

/-- Claim C6 (amended): for the multi-step ODE variants (autonomous and
non-autonomous), when the initial state window has leading length `W` and
the `Yp` reference sequence (the sequence the code derives the horizon
from) has leading length `np` with `W ≤ np`, one forward call simulates
exactly `np − W + 1` steps, and `X_pred` and `Y_pred` have that leading
length; when `np < W` no step is simulated and the trajectory keys are
absent (see the counterexample), so the original claim fails there. -/
theorem C6_multistep_window_step_count :
    (∀ (fx : Seq → Mat) (fy : SubMap) (fxReg : Option ℤ) (name : Option String)
      (ikm0 : List (String × String)) (m : ODEAutoMS)
      (data : Bag) (yp x3D : Seq) (W np : Nat),
      mkODEAutoMS fx fy fxReg name ikm0 = Except.ok m →
      getSeq2 data m.input_key_map "Yp" = some yp →
      getSeq2 data m.input_key_map "x0" = some x3D →
      x3D.length = W → yp.length = np → W ≤ np →
      ∃ X Y, m.forward data
          = some [(suffixKey name "X_pred", Val.seq X),
            (suffixKey name "Y_pred", Val.seq Y),
            (suffixKey name "reg_error", Val.scal m.regError)]
        ∧ X.length = np + 1 - W ∧ Y.length = np + 1 - W)
    ∧ (∀ (fx : Seq → Mat → Mat → Mat) (fy : SubMap) (fxReg : Option ℤ)
      (name : Option String) (ikm0 : List (String × String))
      (extra_inputs : List String) (m : ODENonAutoMS)
      (data : Bag) (yp x3D time : Seq) (exs : List Seq) (W np : Nat),
      mkODENonAutoMS fx fy fxReg name ikm0 extra_inputs = Except.ok m →
      getSeq2 data m.input_key_map "Yp" = some yp →
      getSeq2 data m.input_key_map "x0" = some x3D →
      getSeq2 data m.input_key_map "Time" = some time →
      m.extra_inputs.mapM (getSeqRaw data) = some exs →
      x3D.length = W → yp.length = np → W ≤ np →
      ∃ X Y, m.forward data
          = some [(suffixKey name "X_pred", Val.seq X),
            (suffixKey name "Y_pred", Val.seq Y),
            (suffixKey name "reg_error", Val.scal m.regError)]
        ∧ X.length = np + 1 - W ∧ Y.length = np + 1 - W) := by
  constructor
  · intro fx fy fxReg name ikm0 m data yp x3D W np hm hyp hx0 hW hnp hWnp
    have hmeq := mkODEAutoMS_ok_elim fx fy fxReg name ikm0 m hm
    subst hmeq
    have hXlen : ((odeAutoMSUnroll fx fy x3D (yp.length + 1 - x3D.length)).map
        Prod.fst).length = np + 1 - W := by
      rw [List.length_map, odeAutoMSUnroll_length, hW, hnp]
    have hYlen : ((odeAutoMSUnroll fx fy x3D (yp.length + 1 - x3D.length)).map
        Prod.snd).length = np + 1 - W := by
      rw [List.length_map, odeAutoMSUnroll_length, hW, hnp]
    have hXne : ((odeAutoMSUnroll fx fy x3D (yp.length + 1 - x3D.length)).map
        Prod.fst).isEmpty = false :=
      isEmpty_false_of_length_pos _ (by rw [hXlen]; omega)
    have hYne : ((odeAutoMSUnroll fx fy x3D (yp.length + 1 - x3D.length)).map
        Prod.snd).isEmpty = false :=
      isEmpty_false_of_length_pos _ (by rw [hYlen]; omega)
    refine ⟨_, _, ?_, hXlen, hYlen⟩
    unfold ODEAutoMS.forward
    rw [hyp, hx0]
    dsimp only
    rw [List.filter_cons, List.filter_cons, List.filter_nil, hXne, hYne]
    simp only [Bool.not_false, if_pos]
    rw [show ((["reg_error", "X_pred", "Y_pred"].map (suffixKey name)).tail)
      = [suffixKey name "X_pred", suffixKey name "Y_pred"] from rfl]
    rw [List.zip_cons_cons, List.zip_cons_cons, List.zip_nil_left]
    rw [List.filterMap_cons, List.filterMap_cons, List.filterMap_nil]
    simp only [hXne, hYne, Bool.false_eq_true, if_false]
    rfl
  · intro fx fy fxReg name ikm0 extra_inputs m data yp x3D time exs W np
      hm hyp hx0 htime hexs hW hnp hWnp
    have hmeq := mkODENonAutoMS_ok_elim fx fy fxReg name ikm0 extra_inputs m hm
    subst hmeq
    set inputs := if extra_inputs.isEmpty then time else hcatSeqs exs with hinputs
    have hXlen : ((odeNonAutoMSUnroll fx fy inputs time x3D 0
        (yp.length + 1 - x3D.length)).map Prod.fst).length = np + 1 - W := by
      rw [List.length_map, odeNonAutoMSUnroll_length, hW, hnp]
    have hYlen : ((odeNonAutoMSUnroll fx fy inputs time x3D 0
        (yp.length + 1 - x3D.length)).map Prod.snd).length = np + 1 - W := by
      rw [List.length_map, odeNonAutoMSUnroll_length, hW, hnp]
    have hXne : ((odeNonAutoMSUnroll fx fy inputs time x3D 0
        (yp.length + 1 - x3D.length)).map Prod.fst).isEmpty = false :=
      isEmpty_false_of_length_pos _ (by rw [hXlen]; omega)
    have hYne : ((odeNonAutoMSUnroll fx fy inputs time x3D 0
        (yp.length + 1 - x3D.length)).map Prod.snd).isEmpty = false :=
      isEmpty_false_of_length_pos _ (by rw [hYlen]; omega)
    refine ⟨_, _, ?_, hXlen, hYlen⟩
    unfold ODENonAutoMS.forward
    rw [hyp, hx0]
    dsimp only
    rw [htime]
    dsimp only
    rw [hexs]
    dsimp only
    rw [← hinputs]
    rw [List.filter_cons, List.filter_cons, List.filter_nil, hXne, hYne]
    simp only [Bool.not_false, if_pos]
    rw [show ((["reg_error", "X_pred", "Y_pred"].map (suffixKey name)).tail)
      = [suffixKey name "X_pred", suffixKey name "Y_pred"] from rfl]
    rw [List.zip_cons_cons, List.zip_cons_cons, List.zip_nil_left]
    rw [List.filterMap_cons, List.filterMap_cons, List.filterMap_nil]
    simp only [hXne, hYne, Bool.false_eq_true, if_false]
    rfl

/-- A concrete multi-step integrator: the newest window slice. -/
def fxAutoW : Seq → Mat := fun s => s.getLastD []

/-- A concrete non-autonomous multi-step integrator. -/
def fxNonAutoW : Seq → Mat → Mat → Mat := fun s _ _ => s.getLastD []

/-- A concrete constructed `ODEAuto_MultiStep` instance. -/
def odeAutoW : ODEAutoMS :=
  ⟨fxAutoW, idm1, none, some "dynamics", mkInputKeyMap ["x0", "Yf", "Yp"] [],
    ["reg_error", "X_pred", "Y_pred"].map (suffixKey (some "dynamics"))⟩

/-- A concrete constructed `ODENonAuto_MultiStep` instance with no extra
inputs. -/
def odeNonAutoW : ODENonAutoMS :=
  ⟨fxNonAutoW, idm1, none, [], some "dynamics",
    mkInputKeyMap ["x0", "Yf", "Yp", "Time"] [],
    ["reg_error", "X_pred", "Y_pred"].map (suffixKey (some "dynamics"))⟩

/-- A forward input bag with window size 2 and `Yp` length 3. -/
def dataC6w : Bag :=
  [("x0", Val.seq [[[1]], [[2]]]), ("Yf", Val.seq [[[0]]]),
   ("Yp", Val.seq [[[0]], [[0]], [[0]]]),
   ("Time", Val.seq [[[0]], [[1]], [[2]]])]

/-- Claim C6 witness: the step-count theorem applied to both multi-step
variants at window size 2 and reference length 3, giving trajectories of
leading length 3 − 2 + 1 = 2. -/
theorem C6_multistep_window_step_count_witness :
    (∃ X Y, ODEAutoMS.forward odeAutoW dataC6w
        = some [(suffixKey (some "dynamics") "X_pred", Val.seq X),
          (suffixKey (some "dynamics") "Y_pred", Val.seq Y),
          (suffixKey (some "dynamics") "reg_error", Val.scal odeAutoW.regError)]
      ∧ X.length = 3 + 1 - 2 ∧ Y.length = 3 + 1 - 2)
    ∧ (∃ X Y, ODENonAutoMS.forward odeNonAutoW dataC6w
        = some [(suffixKey (some "dynamics") "X_pred", Val.seq X),
          (suffixKey (some "dynamics") "Y_pred", Val.seq Y),
          (suffixKey (some "dynamics") "reg_error",
            Val.scal odeNonAutoW.regError)]
      ∧ X.length = 3 + 1 - 2 ∧ Y.length = 3 + 1 - 2) :=
  ⟨C6_multistep_window_step_count.1 fxAutoW idm1 none (some "dynamics") []
      odeAutoW dataC6w [[[0]], [[0]], [[0]]] [[[1]], [[2]]] 2 3
      rfl rfl rfl rfl rfl (by omega),
   C6_multistep_window_step_count.2 fxNonAutoW idm1 none (some "dynamics") []
      [] odeNonAutoW dataC6w [[[0]], [[0]], [[0]]] [[[1]], [[2]]]
      [[[0]], [[1]], [[2]]] [] 2 3
      rfl rfl rfl rfl rfl rfl rfl (by omega)⟩

/-- A concrete constructed `ODEAuto_MultiStep` instance for the
counterexample. -/
def odeAutoCE : Except String ODEAutoMS :=
  mkODEAutoMS fxAutoW idm1 none (some "dynamics") []

/-- A forward input bag whose window (length 2) is LONGER than the `Yp`
reference (length 1). -/
def bagC6CE : Bag :=
  [("x0", Val.seq [[[0]], [[0]]]), ("Yf", Val.seq [[[1]]]),
   ("Yp", Val.seq [[[1]]])]

/-- Claim C6 (counterexample): with window length `W = 2` and reference
length 1 (so `(reference length) − W + 1 = 0`), the forward call
simulates no step and returns ONLY the regularization key — `X_pred` and
`Y_pred` are absent, not of leading length 0 as the claim's formula would
require. -/
theorem C6_window_longer_than_reference_counterexample :
    (odeAutoCE.map (fun m => (m.forward bagC6CE).map (fun out => out.map Prod.fst)))
      = Except.ok (some ["reg_error_dynamics"])
    ∧ "X_pred_dynamics" ∉ (["reg_error_dynamics"] : List String)
    ∧ (1 : Nat) + 1 - 2 = 0 := by decide

end NM

